import Mathlib

/-!
# Verification of the Cisco access-session collector

A shallow embedding of the session collection and classification engine of
`check_access_sessions.py` and of the MAC normalization helper of
`ise_api.py`, together with proofs about the embedded definitions.

Strings are modelled as `List Char`.  Each Python `re.findall` call is
modelled by a dedicated matcher (translated from the concrete regular
expression, with Python's leftmost/greedy backtracking semantics worked out
for the specific pattern) driven by a generic scan-and-skip loop that mirrors
`re.findall`'s behaviour of scanning left to right and continuing after the
end of each match.
-/

namespace SessionAudit

abbrev Str := List Char

/-- Python `\d` restricted to ASCII (device output is ASCII). -/
def isDigitB (c : Char) : Bool := '0' ≤ c && c ≤ '9'

/-- A hexadecimal digit, as in the character class `[0-9a-fA-F]`. -/
def isHexB (c : Char) : Bool :=
  isDigitB c || ('a' ≤ c && c ≤ 'f') || ('A' ≤ c && c ≤ 'F')

/-- Python `\w` restricted to ASCII: letters, digits and underscore. -/
def isWordB (c : Char) : Bool := c.isAlpha || isDigitB c || c = '_'

/-- Python `\s` restricted to ASCII: space, tab, newline, carriage return,
vertical tab, form feed. -/
def isSpaceB (c : Char) : Bool :=
  c = ' ' || c = '\t' || c = '\n' || c = '\r' || c = '\x0b' || c = '\x0c'

/-- Python `in` on strings: `pat` occurs as a contiguous substring of `s`. -/
def containsSub (pat : Str) : Str → Bool
  | [] => pat.isPrefixOf []
  | c :: t => pat.isPrefixOf (c :: t) || containsSub pat t

/-- `str.lower()` on the ASCII tokens captured by `\w{3,5}`. -/
def lowerStr (s : Str) : Str := s.map Char.toLower

/-- The part of `s` before the first newline: what `(.*)` captures
(`.` does not match a newline). -/
def restOfLine (s : Str) : Str := s.takeWhile (fun c => ¬ (c = '\n'))

/-!
## Matchers for the five regular expressions of `check_access_sessions.py`

A matcher takes the text starting at a candidate position and returns
`some (capture, rest)` when the pattern matches there, where `capture` is
what `re.findall` reports for that match (group 1 when the pattern has a
group, else the whole match) and `rest` is the text after the end of the
whole match.  All matchers consume at least one character on success.
-/

/-- The 14-character shape `hex4.hex4.hex4` of the MAC regular expression
`[0-9a-fA-F]{4}\.[0-9a-fA-F]{4}\.[0-9a-fA-F]{4}`. -/
def isMacStr (m : Str) : Bool :=
  m.length = 14 &&
  (m.take 4).all isHexB &&
  m.get? 4 = some '.' &&
  ((m.drop 5).take 4).all isHexB &&
  m.get? 9 = some '.' &&
  (m.drop 10).all isHexB

/-- Matcher for the MAC pattern: a fixed-length 14-character match. -/
def macMatchAt (s : Str) : Option (Str × Str) :=
  if isMacStr (s.take 14) then some (s.take 14, s.drop 14) else none

/-- The literal `Session count = ` of the session-count regular expression. -/
def countLit : Str := "Session count = ".data

/-- Matcher for `Session count = (\d+)\n`: the literal, then a maximal
nonempty digit run (the capture), then a newline.  Because digits and the
newline are disjoint character classes, the greedy `\d+` can only match the
maximal run. -/
def countMatchAt (s : Str) : Option (Str × Str) :=
  if countLit.isPrefixOf s then
    let r1 := s.drop countLit.length
    let digits := r1.takeWhile isDigitB
    if digits.isEmpty then none
    else
      match r1.drop digits.length with
      | '\n' :: r2 => some (digits, r2)
      | _ => none
  else none

/-- `n` digit characters present at offset `off` of `s`. -/
def digitsAt (s : Str) (off n : Nat) : Bool :=
  ((s.drop off).take n).length = n && ((s.drop off).take n).all isDigitB

/-- Does the dotted-quad shape with group lengths `(a, b, c, d)` match at the
head of `s`?  This is the body of `\d{1,3}\.\d{1,3}\.\d{1,3}\.\d{1,3}` for one
choice of how many digits each `\d{1,3}` takes: digits, a dot, digits, a dot,
digits, a dot, digits, at consecutive offsets. -/
def ipShapeAt (s : Str) : Nat × Nat × Nat × Nat → Bool
  | (a, b, c, d) =>
    digitsAt s 0 a && s.get? a = some '.' &&
    digitsAt s (a + 1) b && s.get? (a + 1 + b) = some '.' &&
    digitsAt s (a + 1 + b + 1) c && s.get? (a + 1 + b + 1 + c) = some '.' &&
    digitsAt s (a + 1 + b + 1 + c + 1) d

/-- The group-length tuples `(a, b, c, d)` in the order Python's backtracking
engine tries them for `\d{1,3}\.\d{1,3}\.\d{1,3}\.\d{1,3}`: each quantifier is
greedy, the leftmost backtracks last. -/
def ipCandidates : List (Nat × Nat × Nat × Nat) :=
  [3, 2, 1].flatMap fun a =>
    [3, 2, 1].flatMap fun b =>
      [3, 2, 1].flatMap fun c =>
        [3, 2, 1].map fun d => (a, b, c, d)

/-- Total number of characters matched by the dotted quad with group lengths
`(a, b, c, d)`: the digits plus the three dots. -/
def ipTotal : Nat × Nat × Nat × Nat → Nat
  | (a, b, c, d) => a + b + c + d + 3

/-- Matcher for `\d{1,3}\.\d{1,3}\.\d{1,3}\.\d{1,3}`: the first group-length
tuple (in backtracking order) whose shape fits determines the match. -/
def ipMatchAt (s : Str) : Option (Str × Str) :=
  match ipCandidates.find? (ipShapeAt s) with
  | some t => some (s.take (ipTotal t), s.drop (ipTotal t))
  | none => none

/-- The literal `Authc` of the method regular expression. -/
def authcLit : Str := "Authc".data

/-- Matcher for `(\w{3,5})\s+Authc\s.*`.  At a given position the word-run
is forced: `\w{3,5}` is greedy, and after taking `k` word characters the
pattern needs `\s`, so a shorter `k` (whose next character is still a word
character) can never succeed; hence the pattern matches only when the maximal
word run at this position has length 3, 4 or 5.  `\s+` is likewise forced to
the maximal whitespace run because `Authc` starts with a non-whitespace
character.  The whole match extends past `Authc` over one `\s` character and
then `.*` to the end of the line. -/
def methodMatchAt (s : Str) : Option (Str × Str) :=
  let w := s.takeWhile isWordB
  if 3 ≤ w.length && w.length ≤ 5 then
    let s1 := s.drop w.length
    let sp := s1.takeWhile isSpaceB
    if sp.isEmpty then none
    else
      let s2 := s1.drop sp.length
      if authcLit.isPrefixOf s2 then
        match s2.drop authcLit.length with
        | c :: s3 =>
          if isSpaceB c then some (w, s3.drop (restOfLine s3).length) else none
        | [] => none
      else none
  else none

/-- Matcher for a pattern of the form `lit(.*)`: the literal, then the rest
of the line as the capture.  Used for `Status:  (.*)` and `Interface: (.*)`. -/
def litLineMatchAt (lit : Str) (s : Str) : Option (Str × Str) :=
  if lit.isPrefixOf s then
    let r1 := s.drop lit.length
    some (restOfLine r1, r1.drop (restOfLine r1).length)
  else none

/-- The literal `Status:  ` (two spaces) of `Status:  (.*)`. -/
def statusLit : Str := "Status:  ".data

/-- The literal `Interface: ` of `Interface: (.*)`. -/
def interfaceLit : Str := "Interface: ".data

/-- The literal `User-Name:` of `User-Name:\s+(.*)`. -/
def userLit : Str := "User-Name:".data

/-- Matcher for `User-Name:\s+(.*)`: the literal, at least one whitespace
character (the run is forced maximal since `.*` always succeeds and `\s+` is
greedy), then the rest of the line as the capture. -/
def userMatchAt (s : Str) : Option (Str × Str) :=
  if userLit.isPrefixOf s then
    let s1 := s.drop userLit.length
    let sp := s1.takeWhile isSpaceB
    if sp.isEmpty then none
    else
      let s2 := s1.drop sp.length
      some (restOfLine s2, s2.drop (restOfLine s2).length)
  else none

/-!
## The `re.findall` driver
-/

/-- Fuelled scan loop of `re.findall`: at each position try the matcher; on a
match record the capture and continue after the whole match, otherwise step
one character.  Every matcher used here consumes at least one character, so
`length + 1` fuel (see `reFindAll`) is always enough. -/
def findAllAux (M : Str → Option (Str × Str)) : Nat → Str → List Str
  | 0, _ => []
  | fuel + 1, s =>
    match M s with
    | some (m, r) => m :: findAllAux M fuel r
    | none =>
      match s with
      | [] => []
      | _ :: t => findAllAux M fuel t

/-- `re.findall(pattern, s)` for the matcher `M` of `pattern`. -/
def reFindAll (M : Str → Option (Str × Str)) (s : Str) : List Str :=
  findAllAux M (s.length + 1) s

/-!
## Data model

`check_access_sessions.py` mutates a `Device` object while exchanging
commands over a connection, querying a vendor API and sleeping.  The
embedding passes the device state explicitly, draws the external responses
from an `Env`, and records the externally visible actions in a trace of
`Event`s.
-/

/-- The sentinel `"Unknown"`. -/
def unknownStr : Str := "Unknown".data

/-- The sentinel `"unknown"` used for a missing IP address. -/
def unknownLower : Str := "unknown".data

/-- The marker `"FAIL"`. -/
def failLit : Str := "FAIL".data

/-- The marker `"Unauthorized"`. -/
def unauthLit : Str := "Unauthorized".data

/-- The method token `"mab"` compared against `method[0].lower()`. -/
def mabStr : Str := "mab".data

/-- One entry of `dict_result`: the `dict_session_details` dictionary.
`vendor` is `none` when the key is never assigned (non-MAB methods). -/
structure SessionRecord where
  status : Str
  interface : Str
  mac_address : Str
  ip_address : Str
  user_name : Str
  method : Str
  vendor : Option Str
deriving DecidableEq

/-- Outcome of `requests.get` on the vendor API: an HTTP response with a
status code and body, or a raised `requests.exceptions.RequestException`. -/
inductive Lookup where
  | resp (status : Nat) (body : Str)
  | exn
deriving DecidableEq

/-- Exceptions the collector can raise. -/
inductive PyErr where
  | connectionError
  | commandError
  | indexError
deriving DecidableEq

/-- Externally visible actions of one collection run, in order. -/
inductive Event where
  | openAttempt
  | termLenCmd
  | inventoryQuery
  | detailQuery (mac : Str)
  | lookupReq (mac : Str) (raised : Bool)
  | sleep (secs : Nat)
  | closeConn
deriving DecidableEq

/-- The mutable attributes of a `Device` object. -/
structure Device where
  current_ip_address : Str
  dict_result : List (Str × SessionRecord)
  session_count : List Str
  mac_addresses : List Str
deriving DecidableEq

/-- A fresh `Device(current_ip_address)`. -/
def Device.init (ip : Str) : Device :=
  { current_ip_address := ip, dict_result := [], session_count := [], mac_addresses := [] }

/-- The responses the outside world gives to this run: whether the SSH open
succeeds, the results of the three command shapes (`none` models a raised
command exception), and the vendor-API outcome per looked-up MAC. -/
structure Env where
  openOk : Bool
  termLenOk : Bool
  inventoryText : Option Str
  detailText : Str → Option Str
  lookup : Str → Lookup

/-- Python dict assignment `d[k] = v`: overwrite in place if the key exists
(keeping its position), otherwise append. -/
def dictInsert (k : Str) (v : SessionRecord) : List (Str × SessionRecord) → List (Str × SessionRecord)
  | [] => [(k, v)]
  | (k', v') :: t => if k' = k then (k, v) :: t else (k', v') :: dictInsert k v t

/-- Python dict lookup `d.get(k)`. -/
def dictGet (k : Str) : List (Str × SessionRecord) → Option SessionRecord
  | [] => none
  | (k', v') :: t => if k' = k then some v' else dictGet k t

/-!
## The classification step (`collect_active_sessions_details`)
-/

/-- Lines 204-232 of `check_access_sessions.py`: the per-field extraction
from one MAC's detail text, with `each` the MAC used in the query.  Total:
every absent field falls back to its sentinel. -/
def buildRecord (each text : Str) : SessionRecord :=
  let mac := reFindAll macMatchAt text
  let ip := reFindAll ipMatchAt text
  let method := reFindAll methodMatchAt text
  let status := reFindAll (litLineMatchAt statusLit) text
  let interfaceM := reFindAll (litLineMatchAt interfaceLit) text
  let user := reFindAll userMatchAt text
  { status := status.headD unknownStr
    interface := interfaceM.headD unknownStr
    mac_address := mac.headD each
    ip_address := ip.headD unknownLower
    user_name := user.headD unknownStr
    method := method.headD unknownStr
    vendor := none }

/-- Lines 234-246: the vendor-lookup block.  When `method[0].lower()` is
`"mab"` the code builds the URL from `mac_address[0]` (raising `IndexError`
when the findall list is empty - it does not reuse the fallback of line 220),
issues the request, stores the body on HTTP 200 and `"Unknown"` otherwise,
sleeps one second inside the `try`, and on a `RequestException` stores
`"Unknown"` without sleeping. -/
def vendorStep (r : SessionRecord) (text : Str) (lookup : Str → Lookup) :
    Except PyErr (SessionRecord × List Event) :=
  let methods := reFindAll methodMatchAt text
  let macs := reFindAll macMatchAt text
  match methods with
  | [] => .ok (r, [])
  | m0 :: _ =>
    if lowerStr m0 = mabStr then
      match macs with
      | [] => .error .indexError
      | mac0 :: _ =>
        match lookup mac0 with
        | .resp st body =>
          if st = 200 then
            .ok ({ r with vendor := some body }, [.lookupReq mac0 false, .sleep 1])
          else
            .ok ({ r with vendor := some unknownStr }, [.lookupReq mac0 false, .sleep 1])
        | .exn =>
          .ok ({ r with vendor := some unknownStr }, [.lookupReq mac0 true])
    else .ok (r, [])

/-- The body of the loop of `collect_active_sessions_details` for one MAC's
detail text: no record unless the text contains `FAIL` or `Unauthorized`;
otherwise the extracted record together with the vendor enrichment. -/
def classify (each text : Str) (lookup : Str → Lookup) :
    Except PyErr (Option (SessionRecord × List Event)) :=
  if containsSub failLit text || containsSub unauthLit text then
    match vendorStep (buildRecord each text) text lookup with
    | .error e => .error e
    | .ok (r, evs) => .ok (some (r, evs))
  else .ok none

/-- One iteration of the loop: issue the detail query, classify, and insert
into `dict_result` under the inventory MAC.  The first component is the
exception raised (if any); the device state reflects all mutations performed
before a raise. -/
def detailStep (env : Env) (dev : Device) (each : Str) :
    Option PyErr × Device × List Event :=
  match env.detailText each with
  | none => (some .commandError, dev, [.detailQuery each])
  | some text =>
    match classify each text env.lookup with
    | .error e => (some e, dev, [.detailQuery each])
    | .ok none => (none, dev, [.detailQuery each])
    | .ok (some (r, evs)) =>
      (none, { dev with dict_result := dictInsert each r dev.dict_result },
        .detailQuery each :: evs)

/-- The loop of `collect_active_sessions_details` over a list of MACs. -/
def detailsLoop (env : Env) : Device → List Str → Option PyErr × Device × List Event
  | dev, [] => (none, dev, [])
  | dev, each :: rest =>
    match detailStep env dev each with
    | (some e, dev1, evs) => (some e, dev1, evs)
    | (none, dev1, evs) =>
      let (res, dev2, evs') := detailsLoop env dev1 rest
      (res, dev2, evs ++ evs')

/-- `Device.collect_active_sessions_details`: iterate over
`self.mac_addresses`. -/
def collectDetails (env : Env) (dev : Device) : Option PyErr × Device × List Event :=
  detailsLoop env dev dev.mac_addresses

/-- `Device.collect_active_sessions`: disable paging, issue the inventory
query, and store the two findall results in `session_count` and
`mac_addresses`. -/
def collectSessions (env : Env) (dev : Device) : Option PyErr × Device × List Event :=
  if ¬ env.termLenOk then (some .commandError, dev, [.termLenCmd])
  else
    match env.inventoryText with
    | none => (some .commandError, dev, [.termLenCmd, .inventoryQuery])
    | some text =>
      (none,
        { dev with
          session_count := reFindAll countMatchAt text
          mac_addresses := reFindAll macMatchAt text },
        [.termLenCmd, .inventoryQuery])

/-- The pure part of `parse_inventory`: what `collect_active_sessions` stores
for a given inventory text. -/
def parseInventory (text : Str) : List Str × List Str :=
  (reFindAll countMatchAt text, reFindAll macMatchAt text)

/-- `main(current_ip_address)`: build a fresh device, open the connection
(raising `ConnectionError` on failure), collect the inventory, collect the
details, and close the connection.  There is no `try/finally`: the close at
line 291 runs only when every earlier step returned normally. -/
def runMain (env : Env) (ip : Str) : Option PyErr × Device × List Event :=
  let dev0 := Device.init ip
  if ¬ env.openOk then (some .connectionError, dev0, [.openAttempt])
  else
    match collectSessions env dev0 with
    | (some e, dev1, evs) => (some e, dev1, .openAttempt :: evs)
    | (none, dev1, evs) =>
      match collectDetails env dev1 with
      | (some e, dev2, evs2) => (some e, dev2, .openAttempt :: (evs ++ evs2))
      | (none, dev2, evs2) =>
        (none, dev2, .openAttempt :: (evs ++ evs2) ++ [.closeConn])

/-!
## `mac_normalization` (`ise_api.py`, lines 192-229)
-/

/-- `mac_normalization(current_mac_address, symbol)`: strip every character
that is not a word character (`re.sub(r"\W+", "", ...)`), and if exactly 12
characters remain, join the three 4-character groups with `symbol`; otherwise
return `"Error"`. -/
def mac_normalization (s : Str) (symbol : Str) : Str :=
  let t := s.filter isWordB
  if t.length = 12 then
    t.take 4 ++ symbol ++ (t.drop 4).take 4 ++ symbol ++ t.drop 8
  else "Error".data

/-!
## Matcher well-formedness: every matcher consumes and leaves a suffix
-/

/-- Normal form of a well-behaved matcher: on success the rest is the proper
suffix of the input obtained by dropping the matched characters. -/
def DropMatcher (M : Str → Option (Str × Str)) : Prop :=
  ∀ s m r, M s = some (m, r) → r.length < s.length ∧ r = s.drop (s.length - r.length)

lemma dropMatcher_of_drop {M : Str → Option (Str × Str)}
    (h : ∀ s m r, M s = some (m, r) → ∃ k, 0 < k ∧ k ≤ s.length ∧ r = s.drop k) :
    DropMatcher M := by
  intro s m r hm
  obtain ⟨k, hk0, hkle, hr⟩ := h s m r hm
  have hlen : r.length = s.length - k := by rw [hr, List.length_drop]
  refine ⟨by omega, ?_⟩
  rw [hlen, Nat.sub_sub_self hkle, ← hr]

lemma isMacStr_length {m : Str} (h : isMacStr m = true) : m.length = 14 := by
  unfold isMacStr at h
  simp only [Bool.and_eq_true, decide_eq_true_eq] at h
  exact h.1.1.1.1.1

lemma dropMatcher_mac : DropMatcher macMatchAt := by
  apply dropMatcher_of_drop
  intro s m r hm
  unfold macMatchAt at hm
  split at hm
  case isTrue h =>
    obtain ⟨hm1, hm2⟩ : s.take 14 = m ∧ s.drop 14 = r := by simpa using hm
    have h14 : (s.take 14).length = 14 := isMacStr_length h
    rw [List.length_take] at h14
    have h14le : 14 ≤ s.length := by
      rcases Nat.le_total 14 s.length with h' | h'
      · exact h'
      · simp [Nat.min_eq_right h'] at h14; omega
    exact ⟨14, by omega, h14le, hm2.symm⟩
  case isFalse h => exact absurd hm (by simp)

lemma dropMatcher_count : DropMatcher countMatchAt := by
  apply dropMatcher_of_drop
  intro s m r hm
  simp only [countMatchAt] at hm
  split at hm
  case isFalse => exact absurd hm (by simp)
  case isTrue hpre =>
    split at hm
    case isTrue => exact absurd hm (by simp)
    case isFalse hne =>
      split at hm
      case h_2 => exact absurd hm (by simp)
      case h_1 r2 heq =>
        obtain ⟨hm1, hm2⟩ :
            (s.drop countLit.length).takeWhile isDigitB = m ∧ r2 = r := by
          simpa using hm
        rw [List.drop_drop] at heq
        have hl := congrArg List.length heq
        rw [List.length_drop, List.length_cons] at hl
        have htail := congrArg List.tail heq
        rw [List.tail_drop, List.tail_cons] at htail
        refine ⟨countLit.length +
          ((s.drop countLit.length).takeWhile isDigitB).length + 1, by omega, by omega, ?_⟩
        rw [← hm2, htail]

lemma digitsAt_le {s : Str} {off n : Nat} (hn : 0 < n) (h : digitsAt s off n = true) :
    off + n ≤ s.length := by
  unfold digitsAt at h
  simp only [Bool.and_eq_true, decide_eq_true_eq] at h
  have := h.1
  rw [List.length_take, List.length_drop] at this
  rcases Nat.le_total n (s.length - off) with h' | h'
  · omega
  · rw [Nat.min_eq_right h'] at this; omega

lemma ipShapeAt_le {s : Str} {t : Nat × Nat × Nat × Nat} (hd : 0 < t.2.2.2)
    (h : ipShapeAt s t = true) : ipTotal t ≤ s.length := by
  obtain ⟨a, b, c, d⟩ := t
  have hd' : 0 < d := hd
  unfold ipShapeAt at h
  simp only [Bool.and_eq_true] at h
  have hle := digitsAt_le hd' h.2
  simp only [ipTotal]
  omega

lemma ipCandidates_pos : ∀ t ∈ ipCandidates, 0 < t.1 ∧ 0 < t.2.1 ∧ 0 < t.2.2.1 ∧ 0 < t.2.2.2 := by
  decide

lemma dropMatcher_ip : DropMatcher ipMatchAt := by
  apply dropMatcher_of_drop
  intro s m r hm
  unfold ipMatchAt at hm
  split at hm
  case h_2 => exact absurd hm (by simp)
  case h_1 t ht =>
    obtain ⟨hm1, hm2⟩ : s.take (ipTotal t) = m ∧ s.drop (ipTotal t) = r := by simpa using hm
    have hsh : ipShapeAt s t = true := List.find?_some ht
    have hmem := List.mem_of_find?_eq_some ht
    have hle := ipShapeAt_le (ipCandidates_pos t hmem).2.2.2 hsh
    have hpos : 0 < ipTotal t := by
      obtain ⟨a, b, c, d⟩ := t
      simp only [ipTotal]
      omega
    exact ⟨ipTotal t, hpos, hle, hm2.symm⟩

lemma restOfLine_length_le (s : Str) : (restOfLine s).length ≤ s.length :=
  (List.takeWhile_prefix _).length_le

lemma dropMatcher_method : DropMatcher methodMatchAt := by
  apply dropMatcher_of_drop
  intro s m r hm
  simp only [methodMatchAt] at hm
  split at hm
  case isFalse => exact absurd hm (by simp)
  case isTrue hw =>
    simp only [Bool.and_eq_true, decide_eq_true_eq] at hw
    split at hm
    case isTrue => exact absurd hm (by simp)
    case isFalse hsp =>
      split at hm
      case isFalse => exact absurd hm (by simp)
      case isTrue hauth =>
        split at hm
        case h_2 => exact absurd hm (by simp)
        case h_1 c s3 hcons =>
          split at hm
          case isFalse => exact absurd hm (by simp)
          case isTrue hspc =>
            obtain ⟨hm1, hm2⟩ :
                s.takeWhile isWordB = m ∧ s3.drop (restOfLine s3).length = r := by
              simpa using hm
            set w := s.takeWhile isWordB with hwdef
            set sp := (s.drop w.length).takeWhile isSpaceB with hspdef
            have hauthlen : authcLit.length = 5 := by decide
            rw [List.drop_drop, hauthlen] at hcons
            have hwle : w.length ≤ s.length := (List.takeWhile_prefix _).length_le
            have hl := congrArg List.length hcons
            rw [List.length_drop, List.length_drop, List.length_cons] at hl
            have htail := congrArg List.tail hcons
            rw [List.tail_drop, List.tail_cons, List.drop_drop] at htail
            have hrle := restOfLine_length_le s3
            have hs3len : s3.length = s.length - (w.length + (sp.length + 5 + 1)) := by
              rw [← htail, List.length_drop]
            refine ⟨w.length + (sp.length + 5 + 1) + (restOfLine s3).length,
              by omega, by omega, ?_⟩
            rw [← hm2, ← htail, List.drop_drop]

lemma dropMatcher_litLine {lit : Str} (hl : lit ≠ []) :
    DropMatcher (litLineMatchAt lit) := by
  apply dropMatcher_of_drop
  intro s m r hm
  simp only [litLineMatchAt] at hm
  split at hm
  case isFalse => exact absurd hm (by simp)
  case isTrue hpre =>
    obtain ⟨hm1, hm2⟩ :
        restOfLine (s.drop lit.length) = m ∧
          (s.drop lit.length).drop (restOfLine (s.drop lit.length)).length = r := by
      simpa using hm
    have hlle : lit.length ≤ s.length :=
      (List.isPrefixOf_iff_prefix.mp hpre).length_le
    have hrle := restOfLine_length_le (s.drop lit.length)
    rw [List.length_drop] at hrle
    have hl0 : 0 < lit.length := List.length_pos.mpr hl
    refine ⟨lit.length + (restOfLine (s.drop lit.length)).length, by omega, by omega, ?_⟩
    rw [← hm2, List.drop_drop]

lemma dropMatcher_user : DropMatcher userMatchAt := by
  apply dropMatcher_of_drop
  intro s m r hm
  simp only [userMatchAt] at hm
  split at hm
  case isFalse => exact absurd hm (by simp)
  case isTrue hpre =>
    split at hm
    case isTrue => exact absurd hm (by simp)
    case isFalse hsp =>
      obtain ⟨hm1, hm2⟩ :
          restOfLine ((s.drop userLit.length).drop
              ((s.drop userLit.length).takeWhile isSpaceB).length) = m ∧
            ((s.drop userLit.length).drop
              ((s.drop userLit.length).takeWhile isSpaceB).length).drop
              (restOfLine ((s.drop userLit.length).drop
                ((s.drop userLit.length).takeWhile isSpaceB).length)).length = r := by
        simpa using hm
      set sp := (s.drop userLit.length).takeWhile isSpaceB with hspdef
      have hulle : userLit.length ≤ s.length :=
        (List.isPrefixOf_iff_prefix.mp hpre).length_le
      have hsple : sp.length ≤ (s.drop userLit.length).length :=
        (List.takeWhile_prefix _).length_le
      rw [List.length_drop] at hsple
      have hrle := restOfLine_length_le ((s.drop userLit.length).drop sp.length)
      rw [List.length_drop, List.length_drop] at hrle
      have hu0 : 0 < userLit.length := by decide
      refine ⟨userLit.length + sp.length +
        (restOfLine ((s.drop userLit.length).drop sp.length)).length, by omega, by omega, ?_⟩
      rw [← hm2, List.drop_drop, List.drop_drop]
      congr 1
      omega

/-!
## `re.findall` as the captures at all match positions

For a text whose match positions do not overlap, the scan-and-skip loop of
`re.findall` returns exactly the capture at every position where the pattern
matches, in first-occurrence order.
-/

/-- All positions of `s` at which the matcher matches, in increasing order
(overlapping occurrences included). -/
def matchPos (M : Str → Option (Str × Str)) (s : Str) : List Nat :=
  (List.range s.length).filter (fun i => (M (s.drop i)).isSome)

/-- The capture reported at position `i`. -/
def capAt (M : Str → Option (Str × Str)) (s : Str) (i : Nat) : Str :=
  match M (s.drop i) with
  | some (m, _) => m
  | none => []

/-- The length of the whole match at position `i`. -/
def mLenAt (M : Str → Option (Str × Str)) (s : Str) (i : Nat) : Nat :=
  match M (s.drop i) with
  | some (_, r) => (s.drop i).length - r.length
  | none => 0

/-- The captures at all match positions, in first-occurrence order. -/
def occurrencesOf (M : Str → Option (Str × Str)) (s : Str) : List Str :=
  (matchPos M s).map (capAt M s)

/-- Consecutive positions in the list do not overlap as matches of `M` in
`s`: each next one starts at or after the end of the previous match. -/
def spacedPos (M : Str → Option (Str × Str)) (s : Str) : List Nat → Bool
  | i :: j :: t => decide (i + mLenAt M s i ≤ j) && spacedPos M s (j :: t)
  | _ => true

/-- No two matches of `M` in `s` overlap. -/
def wellSpaced (M : Str → Option (Str × Str)) (s : Str) : Bool :=
  spacedPos M s (matchPos M s)

lemma findAllAux_fuel {M : Str → Option (Str × Str)} (hM : DropMatcher M) :
    ∀ f g s, s.length < f → s.length < g → findAllAux M f s = findAllAux M g s := by
  intro f
  induction f with
  | zero => intro g s hf _; exact absurd hf (by omega)
  | succ f ih =>
    intro g s hf hg
    obtain ⟨g', rfl⟩ : ∃ g', g = g' + 1 := ⟨g - 1, by omega⟩
    simp only [findAllAux]
    cases hms : M s with
    | some mr =>
      obtain ⟨m, r⟩ := mr
      have hr := (hM s m r hms).1
      show m :: findAllAux M f r = m :: findAllAux M g' r
      rw [ih g' r (by omega) (by omega)]
    | none =>
      cases s with
      | nil => rfl
      | cons c t =>
        simp only [List.length_cons] at hf hg
        show findAllAux M f t = findAllAux M g' t
        exact ih g' t (by omega) (by omega)

lemma reFindAll_nil {M : Str → Option (Str × Str)} (hM : DropMatcher M) :
    reFindAll M [] = [] := by
  show findAllAux M (List.length ([] : Str) + 1) [] = []
  cases hms : M [] with
  | some mr =>
    obtain ⟨m, r⟩ := mr
    have := (hM [] m r hms).1
    simp at this
  | none => simp [findAllAux, hms]

lemma reFindAll_cons_none {M : Str → Option (Str × Str)} {c : Char} {t : Str}
    (h : M (c :: t) = none) : reFindAll M (c :: t) = reFindAll M t := by
  simp only [reFindAll, List.length_cons, findAllAux, h]

lemma reFindAll_cons_some {M : Str → Option (Str × Str)} (hM : DropMatcher M)
    {s m r : Str} (h : M s = some (m, r)) : reFindAll M s = m :: reFindAll M r := by
  have hr := (hM s m r h).1
  suffices hstep : findAllAux M (s.length + 1) s = m :: findAllAux M s.length r by
    show findAllAux M (s.length + 1) s = m :: findAllAux M (r.length + 1) r
    rw [hstep, findAllAux_fuel hM s.length (r.length + 1) r (by omega) (by omega)]
  simp only [findAllAux, h]

lemma matchPos_cons (M : Str → Option (Str × Str)) (c : Char) (t : Str) :
    matchPos M (c :: t) =
      (if (M (c :: t)).isSome then [0] else []) ++ (matchPos M t).map (· + 1) := by
  unfold matchPos
  rw [List.length_cons, List.range_succ_eq_map, List.filter_cons, List.filter_map]
  have hcong : (List.range t.length).filter
      ((fun i => (M ((c :: t).drop i)).isSome) ∘ Nat.succ) =
      (List.range t.length).filter (fun i => (M (t.drop i)).isSome) := by
    apply List.filter_congr
    intro i _
    simp [Function.comp, List.drop_succ_cons]
  rw [hcong]
  simp only [List.drop_zero]
  split <;> simp [Nat.succ_eq_add_one]

lemma matchPos_drop (M : Str → Option (Str × Str)) (s : Str) (k : Nat)
    (hk : k ≤ s.length) :
    matchPos M (s.drop k) =
      ((matchPos M s).filter (fun i => decide (k ≤ i))).map (fun i => i - k) := by
  unfold matchPos
  rw [List.length_drop, List.filter_filter]
  have hsplit : List.range s.length =
      List.range k ++ (List.range (s.length - k)).map (fun x => k + x) := by
    conv_lhs => rw [show s.length = k + (s.length - k) by omega]
    exact List.range_add k (s.length - k)
  rw [hsplit, List.filter_append]
  have h1 : (List.range k).filter
      (fun a => decide (k ≤ a) && (M (s.drop a)).isSome) = [] := by
    apply List.filter_eq_nil_iff.mpr
    intro a ha
    have : a < k := List.mem_range.mp ha
    simp [Nat.not_le.mpr this]
  rw [h1, List.nil_append, List.filter_map]
  rw [List.map_map]
  have hcong : (List.range (s.length - k)).filter
      ((fun a => decide (k ≤ a) && (M (s.drop a)).isSome) ∘ (fun x => k + x)) =
      (List.range (s.length - k)).filter (fun i => (M ((s.drop k).drop i)).isSome) := by
    apply List.filter_congr
    intro i _
    simp [Function.comp, List.drop_drop, Nat.le_add_right]
  rw [hcong]
  have hmapid : ((fun i => i - k) ∘ fun x => k + x) = id := by
    funext x
    simp
  rw [hmapid, List.map_id]

lemma mLenAt_succ (M : Str → Option (Str × Str)) (c : Char) (t : Str) (i : Nat) :
    mLenAt M (c :: t) (i + 1) = mLenAt M t i := by
  unfold mLenAt
  rw [List.drop_succ_cons]

lemma capAt_succ (M : Str → Option (Str × Str)) (c : Char) (t : Str) (i : Nat) :
    capAt M (c :: t) (i + 1) = capAt M t i := by
  unfold capAt
  rw [List.drop_succ_cons]

lemma mLenAt_drop (M : Str → Option (Str × Str)) (s : Str) (k i : Nat) (h : k ≤ i) :
    mLenAt M (s.drop k) (i - k) = mLenAt M s i := by
  unfold mLenAt
  rw [List.drop_drop, Nat.add_sub_cancel' h]

lemma capAt_drop (M : Str → Option (Str × Str)) (s : Str) (k i : Nat) (h : k ≤ i) :
    capAt M (s.drop k) (i - k) = capAt M s i := by
  unfold capAt
  rw [List.drop_drop, Nat.add_sub_cancel' h]

lemma spacedPos_succ (M : Str → Option (Str × Str)) (c : Char) (t : Str) :
    ∀ l : List Nat, spacedPos M (c :: t) (l.map (· + 1)) = spacedPos M t l
  | [] => rfl
  | [_] => rfl
  | i :: j :: l' => by
    have ih := spacedPos_succ M c t (j :: l')
    simp only [List.map_cons] at ih
    simp only [List.map_cons, spacedPos]
    rw [mLenAt_succ, ih]
    congr 1
    exact decide_eq_decide.mpr (by omega)

lemma spacedPos_drop (M : Str → Option (Str × Str)) (s : Str) (k : Nat) :
    ∀ l : List Nat, (∀ x ∈ l, k ≤ x) →
      spacedPos M (s.drop k) (l.map (fun i => i - k)) = spacedPos M s l
  | [], _ => rfl
  | [_], _ => rfl
  | i :: j :: l', h => by
    have ih := spacedPos_drop M s k (j :: l') (fun x hx => h x (by simp [hx]))
    simp only [List.map_cons] at ih
    simp only [List.map_cons, spacedPos]
    rw [mLenAt_drop M s k i (h i (by simp)), ih]
    congr 1
    have hi : k ≤ i := h i (by simp)
    have hj : k ≤ j := h j (by simp)
    exact decide_eq_decide.mpr (by omega)

lemma matchPos_pairwise (M : Str → Option (Str × Str)) (s : Str) :
    (matchPos M s).Pairwise (· < ·) :=
  List.Pairwise.sublist (List.filter_sublist _) (List.pairwise_lt_range _)

lemma spacedPos_of_cons {M : Str → Option (Str × Str)} {s : Str} {i : Nat}
    {l : List Nat} (h : spacedPos M s (i :: l) = true) : spacedPos M s l = true := by
  cases l with
  | nil => rfl
  | cons j l' =>
    simp only [spacedPos, Bool.and_eq_true] at h
    exact h.2

lemma reFindAll_eq_occurrencesAux {M : Str → Option (Str × Str)} (hM : DropMatcher M) :
    ∀ (n : Nat) (s : Str), s.length ≤ n → spacedPos M s (matchPos M s) = true →
      reFindAll M s = occurrencesOf M s := by
  intro n
  induction n with
  | zero =>
    intro s hlen _
    have : s = [] := List.length_eq_zero.mp (by omega)
    subst this
    simp [reFindAll_nil hM, occurrencesOf, matchPos]
  | succ n ih =>
    intro s hlen hsp
    cases hms : M s with
    | none =>
      cases s with
      | nil => simp [reFindAll_nil hM, occurrencesOf, matchPos]
      | cons c t =>
        rw [reFindAll_cons_none hms]
        have hpos := matchPos_cons M c t
        rw [hms] at hpos
        simp only [Option.isSome_none, Bool.false_eq_true, if_false, List.nil_append] at hpos
        have hocc : occurrencesOf M (c :: t) = occurrencesOf M t := by
          unfold occurrencesOf
          rw [hpos, List.map_map]
          apply List.map_congr_left
          intro i _
          exact capAt_succ M c t i
        rw [hocc]
        apply ih t (by simp only [List.length_cons] at hlen; omega)
        rw [hpos, spacedPos_succ] at hsp
        exact hsp
    | some mr =>
      obtain ⟨m, r⟩ := mr
      obtain ⟨hrlen, hrdrop⟩ := hM s m r hms
      rw [reFindAll_cons_some hM hms]
      obtain ⟨c, t, rfl⟩ : ∃ c t, s = c :: t := by
        cases s with
        | nil => simp at hrlen
        | cons c t => exact ⟨c, t, rfl⟩
      set k := (c :: t).length - r.length with hkdef
      have hpos := matchPos_cons M c t
      rw [hms] at hpos
      simp only [Option.isSome_some, if_true, List.singleton_append] at hpos
      have hk1 : 1 ≤ k := by omega
      have hkle : k ≤ (c :: t).length := by omega
      have hmlen0 : mLenAt M (c :: t) 0 = k := by
        unfold mLenAt
        rw [List.drop_zero, hms]
      have hallk : ∀ x ∈ (matchPos M t).map (· + 1), k ≤ x := by
        rw [hpos] at hsp
        have hpw := matchPos_pairwise M (c :: t)
        rw [hpos] at hpw
        cases hrest : (matchPos M t).map (· + 1) with
        | nil => intro x hx; simp at hx
        | cons j l' =>
          rw [hrest] at hsp hpw
          simp only [spacedPos, Bool.and_eq_true, decide_eq_true_eq] at hsp
          have hj : k ≤ j := by
            have h0 := hsp.1
            rw [hmlen0] at h0
            omega
          intro x hx
          rcases List.mem_cons.mp hx with rfl | hx'
          · exact hj
          · have := List.rel_of_pairwise_cons (List.pairwise_cons.mp hpw).2 hx'
            omega
      have hshift := matchPos_drop M (c :: t) k hkle
      rw [← hrdrop] at hshift
      have hfilter : (matchPos M (c :: t)).filter (fun i => decide (k ≤ i)) =
          (matchPos M t).map (· + 1) := by
        rw [hpos, List.filter_cons]
        have hk0 : ¬ (k ≤ 0) := by omega
        simp only [decide_eq_false hk0, Bool.false_eq_true, if_false]
        apply List.filter_eq_self.mpr
        intro a ha
        simpa using hallk a ha
      rw [hfilter] at hshift
      have hocc_r : occurrencesOf M r = ((matchPos M t).map (· + 1)).map (capAt M (c :: t)) := by
        unfold occurrencesOf
        rw [hshift, List.map_map]
        apply List.map_congr_left
        intro i hi
        simp only [Function.comp_apply]
        rw [hrdrop]
        exact capAt_drop M (c :: t) k i (hallk i hi)
      have hsp_r : spacedPos M r (matchPos M r) = true := by
        rw [hshift, hrdrop]
        rw [spacedPos_drop M (c :: t) k ((matchPos M t).map (· + 1)) hallk]
        rw [hpos] at hsp
        exact spacedPos_of_cons hsp
      rw [ih r (by omega) hsp_r, hocc_r]
      unfold occurrencesOf
      rw [hpos, List.map_cons]
      congr 1
      unfold capAt
      rw [List.drop_zero, hms]

/-- `re.findall` on a text whose matches do not overlap returns exactly the
captures at all match positions, in first-occurrence order. -/
theorem reFindAll_eq_occurrences {M : Str → Option (Str × Str)} (hM : DropMatcher M)
    (s : Str) (hsp : wellSpaced M s = true) : reFindAll M s = occurrencesOf M s :=
  reFindAll_eq_occurrencesAux hM s.length s le_rfl hsp

/-!
## Claim C9: MAC normalization
-/

/-- Modelled from the spec: a "valid MAC" is an address whose content, under
any common delimiter style, is exactly 12 hexadecimal digits (the canonical
form being `hex4.hex4.hex4`). -/
def isValidMacInput (s : Str) : Bool :=
  (s.filter isWordB).length = 12 && (s.filter isWordB).all isHexB

/-- C9 counterexample: twelve `Z`s are not a valid MAC (not hexadecimal),
yet `mac_normalization` reformats them as a best-effort guess instead of
returning the invalid signal `"Error"`. -/
theorem c9_counterexample :
    isValidMacInput "ZZZZZZZZZZZZ".data = false ∧
    mac_normalization "ZZZZZZZZZZZZ".data ".".data = "ZZZZ.ZZZZ.ZZZZ".data ∧
    mac_normalization "ZZZZZZZZZZZZ".data ".".data ≠ "Error".data :=
  ⟨by decide, by decide, by decide⟩

/-- C9 (amended): `mac_normalization` reformats any input that strips to
exactly 12 word characters - hexadecimal or not - into three 4-character
groups joined by the separator, and returns `"Error"` exactly when the
stripped input does not have 12 characters; in particular every 11-character
garbled string yields `"Error"`, and the round-trip example holds. -/
theorem c9_amended :
    (∀ s symbol : Str, mac_normalization s symbol = "Error".data ↔
      (s.filter isWordB).length ≠ 12) ∧
    (∀ s symbol : Str, s.length = 11 → mac_normalization s symbol = "Error".data) ∧
    mac_normalization "AA:BB:CC:DD:EE:FF".data ".".data = "AABB.CCDD.EEFF".data := by
  have hiff : ∀ s symbol : Str, mac_normalization s symbol = "Error".data ↔
      (s.filter isWordB).length ≠ 12 := by
    intro s symbol
    simp only [mac_normalization]
    split
    case isTrue h =>
      simp only [h, ne_eq, not_true_eq_false, iff_false]
      intro hcontra
      have hlen := congrArg List.length hcontra
      simp only [List.length_append, List.length_take, List.length_drop, h] at hlen
      have h5 : ("Error".data).length = 5 := by decide
      rw [h5] at hlen
      omega
    case isFalse h =>
      simpa using h
  refine ⟨hiff, ?_, by decide⟩
  intro s symbol hlen
  apply (hiff s symbol).mpr
  have := List.length_filter_le isWordB s
  omega

/-!
## Claim C2: the inventory parse
-/

lemma spacedPos_short {M : Str → Option (Str × Str)} {s : Str} :
    ∀ {l : List Nat}, l.length ≤ 1 → spacedPos M s l = true
  | [], _ => rfl
  | [_], _ => rfl
  | _ :: _ :: _, h => by simp at h

/-- C2: on any inventory text whose MAC-grammar occurrences do not overlap
(the well-formedness condition; real inventory tables list MACs in separate
table cells), `collect_active_sessions` extracts exactly the MAC-grammar
occurrences in first-occurrence order, and the session count is the captured
digit string `K` when the text has exactly one `Session count = K` line -
and stays empty when the pattern never occurs, never an invented value. -/
theorem c2_parse_inventory (text K : Str)
    (hmac : wellSpaced macMatchAt text = true) :
    (occurrencesOf countMatchAt text = [K] →
      parseInventory text = ([K], occurrencesOf macMatchAt text)) ∧
    (occurrencesOf countMatchAt text = [] →
      parseInventory text = ([], occurrencesOf macMatchAt text)) := by
  constructor
  · intro hcount
    have hsp : wellSpaced countMatchAt text = true := by
      unfold wellSpaced
      apply spacedPos_short
      have h2 := congrArg List.length hcount
      unfold occurrencesOf at h2
      rw [List.length_map] at h2
      simp only [List.length_cons, List.length_nil] at h2
      omega
    unfold parseInventory
    rw [reFindAll_eq_occurrences dropMatcher_mac text hmac,
      reFindAll_eq_occurrences dropMatcher_count text hsp, hcount]
  · intro hcount
    have hsp : wellSpaced countMatchAt text = true := by
      unfold wellSpaced
      apply spacedPos_short
      have h2 := congrArg List.length hcount
      unfold occurrencesOf at h2
      rw [List.length_map] at h2
      simp only [List.length_cons, List.length_nil] at h2
      omega
    unfold parseInventory
    rw [reFindAll_eq_occurrences dropMatcher_mac text hmac,
      reFindAll_eq_occurrences dropMatcher_count text hsp, hcount]

/-- A small concrete inventory text: `Session count = 2` and two MACs. -/
def invTextEx : Str := "Session count = 2\n ab12.cd34.ef56 x\n 0000.1111.2222 y\n".data

/-- C2 witness: the hypotheses hold and the conclusion evaluates on a
concrete inventory text with two MACs. -/
theorem c2_parse_inventory_witness :
    parseInventory invTextEx = (["2".data], ["ab12.cd34.ef56".data, "0000.1111.2222".data]) := by
  have h := (c2_parse_inventory invTextEx "2".data (by decide)).1 (by decide)
  rw [h]
  decide

/-!
## Dictionary and loop lemmas
-/

lemma dictGet_insert_ne {k e : Str} (h : k ≠ e) (v : SessionRecord) :
    ∀ d, dictGet k (dictInsert e v d) = dictGet k d
  | [] => by
    simp only [dictInsert, dictGet]
    rw [if_neg (fun he => h he.symm)]
  | (k', v') :: t => by
    simp only [dictInsert]
    split
    case isTrue hk' =>
      subst hk'
      simp only [dictGet]
      rw [if_neg (fun he => h he.symm), if_neg (fun he => h he.symm)]
    case isFalse hk' =>
      simp only [dictGet]
      split
      case isTrue => rfl
      case isFalse => exact dictGet_insert_ne h v t

lemma dictGet_insert_self (e : Str) (v : SessionRecord) :
    ∀ d, dictGet e (dictInsert e v d) = some v
  | [] => by simp [dictInsert, dictGet]
  | (k', v') :: t => by
    simp only [dictInsert]
    split
    case isTrue hk' => simp [dictGet]
    case isFalse hk' =>
      simp only [dictGet]
      rw [if_neg hk']
      exact dictGet_insert_self e v t

/-- On an exception, `detailStep` leaves the device untouched: the raise
happens before the insertion of line 248. -/
lemma detailStep_error {env : Env} {dev : Device} {each : Str} {e : PyErr}
    (h : (detailStep env dev each).1 = some e) : (detailStep env dev each).2.1 = dev := by
  unfold detailStep at h ⊢
  split at h
  · rfl
  · split at h
    · rfl
    · simp at h
    · simp at h

/-- `detailStep` either keeps `dict_result` or inserts under the queried MAC;
all other fields are untouched. -/
lemma detailStep_dict (env : Env) (dev : Device) (each : Str) :
    ((detailStep env dev each).2.1.dict_result = dev.dict_result ∨
      ∃ r, (detailStep env dev each).2.1.dict_result = dictInsert each r dev.dict_result) ∧
    (detailStep env dev each).2.1.current_ip_address = dev.current_ip_address ∧
    (detailStep env dev each).2.1.session_count = dev.session_count ∧
    (detailStep env dev each).2.1.mac_addresses = dev.mac_addresses := by
  unfold detailStep
  split
  · exact ⟨Or.inl rfl, rfl, rfl, rfl⟩
  · split
    · exact ⟨Or.inl rfl, rfl, rfl, rfl⟩
    · exact ⟨Or.inl rfl, rfl, rfl, rfl⟩
    case h_3 r evs heq =>
      exact ⟨Or.inr ⟨r, rfl⟩, rfl, rfl, rfl⟩

/-- The frame property of the detail loop: only keys from the processed list
are touched, and the other device fields never change. -/
lemma detailsLoop_frame (env : Env) :
    ∀ (l : List Str) (dev : Device),
      (detailsLoop env dev l).2.1.current_ip_address = dev.current_ip_address ∧
      (detailsLoop env dev l).2.1.session_count = dev.session_count ∧
      (detailsLoop env dev l).2.1.mac_addresses = dev.mac_addresses ∧
      ∀ k, k ∉ l → dictGet k (detailsLoop env dev l).2.1.dict_result = dictGet k dev.dict_result
  | [], dev => by simp [detailsLoop]
  | each :: rest, dev => by
    simp only [detailsLoop]
    cases hstep : detailStep env dev each with
    | mk res1 p =>
      obtain ⟨dev1, evs⟩ := p
      have hd := detailStep_dict env dev each
      rw [hstep] at hd
      dsimp only at hd
      obtain ⟨hdict, hip, hsc, hmac⟩ := hd
      cases res1 with
      | some e =>
        have hdev1 : dev1 = dev := by
          have h' : (detailStep env dev each).1 = some e := by rw [hstep]
          have := detailStep_error h'
          rw [hstep] at this
          exact this
        subst hdev1
        exact ⟨rfl, rfl, rfl, fun k _ => rfl⟩
      | none =>
        have ih := detailsLoop_frame env rest dev1
        refine ⟨by simp only [ih.1, hip], by simp only [ih.2.1, hsc],
          by simp only [ih.2.2.1, hmac], ?_⟩
        intro k hk
        have hk1 : k ≠ each := fun he => hk (by simp [he])
        have hk2 : k ∉ rest := fun he => hk (by simp [he])
        rw [ih.2.2.2 k hk2]
        rcases hdict with h | ⟨r, hr⟩
        · rw [h]
        · rw [hr, dictGet_insert_ne hk1]

/-- C10: a detail-collection call only adds or overwrites entries keyed by
MACs of the current inventory list; every other key keeps its mapping, the
other device fields are unchanged, and entries accumulated earlier under
other keys are retained. -/
theorem c10_frame (env : Env) (dev : Device) :
    (collectDetails env dev).2.1.current_ip_address = dev.current_ip_address ∧
    (collectDetails env dev).2.1.session_count = dev.session_count ∧
    (collectDetails env dev).2.1.mac_addresses = dev.mac_addresses ∧
    (∀ k, k ∉ dev.mac_addresses →
      dictGet k (collectDetails env dev).2.1.dict_result = dictGet k dev.dict_result) ∧
    (∀ k v, k ∉ dev.mac_addresses → dictGet k dev.dict_result = some v →
      dictGet k (collectDetails env dev).2.1.dict_result = some v) := by
  obtain ⟨h1, h2, h3, h4⟩ := detailsLoop_frame env dev.mac_addresses dev
  exact ⟨h1, h2, h3, h4, fun k v hk hv => by
    show dictGet k (detailsLoop env dev dev.mac_addresses).2.1.dict_result = some v
    rw [h4 k hk, hv]⟩

/-!
## Classification lemmas
-/

/-- A record is produced only when the text carries a failure marker. -/
lemma classify_some_marker {each text : Str} {lookup : Str → Lookup}
    {r : SessionRecord} {evs : List Event}
    (h : classify each text lookup = .ok (some (r, evs))) :
    (containsSub failLit text || containsSub unauthLit text) = true := by
  unfold classify at h
  split at h
  · assumption
  · simp at h

/-- `classify` returns no record exactly on marker-free text. -/
lemma classify_ok_none {each text : Str} {lookup : Str → Lookup}
    (h : classify each text lookup = .ok none) :
    (containsSub failLit text || containsSub unauthLit text) = false := by
  unfold classify at h
  split at h
  case isTrue hm =>
    exfalso
    cases hvs : vendorStep (buildRecord each text) text lookup with
    | error e => rw [hvs] at h; simp at h
    | ok p => rw [hvs] at h; simp at h
  case isFalse hm => simpa using hm

/-- Full case analysis of one loop iteration. -/
lemma detailStep_cases (env : Env) (dev : Device) (each : Str) :
    (∃ e, detailStep env dev each = (some e, dev, [.detailQuery each]) ∧
      (env.detailText each = none ∨
        ∃ text, env.detailText each = some text ∧
          classify each text env.lookup = .error e)) ∨
    (∃ text, env.detailText each = some text ∧ classify each text env.lookup = .ok none ∧
      detailStep env dev each = (none, dev, [.detailQuery each])) ∨
    (∃ text r evs, env.detailText each = some text ∧
      classify each text env.lookup = .ok (some (r, evs)) ∧
      detailStep env dev each =
        (none, { dev with dict_result := dictInsert each r dev.dict_result },
          .detailQuery each :: evs)) := by
  unfold detailStep
  cases hdt : env.detailText each with
  | none => exact Or.inl ⟨.commandError, rfl, Or.inl rfl⟩
  | some text =>
    dsimp only
    cases hcl : classify each text env.lookup with
    | error e => exact Or.inl ⟨e, rfl, Or.inr ⟨text, rfl, hcl⟩⟩
    | ok o =>
      cases o with
      | none => exact Or.inr (Or.inl ⟨text, rfl, hcl, rfl⟩)
      | some p =>
        obtain ⟨r, evs⟩ := p
        exact Or.inr (Or.inr ⟨text, r, evs, rfl, hcl, rfl⟩)

/-- Unfolding of the loop over a cons cell in projection form. -/
lemma detailsLoop_cons (env : Env) (dev : Device) (each : Str) (rest : List Str) :
    detailsLoop env dev (each :: rest) =
      match detailStep env dev each with
      | (some e, dev1, evs) => (some e, dev1, evs)
      | (none, dev1, evs) =>
        ((detailsLoop env dev1 rest).1, (detailsLoop env dev1 rest).2.1,
          evs ++ (detailsLoop env dev1 rest).2.2) := by
  show (match detailStep env dev each with
    | (some e, dev1, evs) => (some e, dev1, evs)
    | (none, dev1, evs) =>
      let p := detailsLoop env dev1 rest
      (p.1, p.2.1, evs ++ p.2.2)) = _
  rcases detailStep env dev each with ⟨res1, dev1, evs⟩
  cases res1 <;> rfl

lemma dictGet_insert_isSome (e k : Str) (v : SessionRecord)
    (d : List (Str × SessionRecord)) (h : (dictGet k d).isSome = true) :
    (dictGet k (dictInsert e v d)).isSome = true := by
  by_cases hk : k = e
  · subst hk
    rw [dictGet_insert_self]
    rfl
  · rw [dictGet_insert_ne hk]
    exact h

/-- The loop never removes an entry from `dict_result`. -/
lemma detailsLoop_mono (env : Env) :
    ∀ (l : List Str) (dev : Device) (k : Str),
      (dictGet k dev.dict_result).isSome = true →
      (dictGet k (detailsLoop env dev l).2.1.dict_result).isSome = true
  | [], _, _, h => h
  | each :: rest, dev, k, h => by
    rw [detailsLoop_cons]
    rcases detailStep_cases env dev each with ⟨e, hstep, _⟩ | ⟨text, _, _, hstep⟩ |
      ⟨text, r, evs, _, _, hstep⟩ <;> rw [hstep]
    · exact h
    · exact detailsLoop_mono env rest dev k h
    · exact detailsLoop_mono env rest _ k (dictGet_insert_isSome each k r _ h)

/-- Entries appear in `dict_result` only for MACs of the processed list whose
detail text was returned and carries a failure marker. -/
lemma detailsLoop_only_failures (env : Env) :
    ∀ (l : List Str) (dev : Device) (k : Str),
      dictGet k dev.dict_result = none →
      (dictGet k (detailsLoop env dev l).2.1.dict_result).isSome = true →
      k ∈ l ∧ ∃ text, env.detailText k = some text ∧
        (containsSub failLit text || containsSub unauthLit text) = true
  | [], _, _, h0, hsome => by
    rw [detailsLoop] at hsome
    rw [h0] at hsome
    simp at hsome
  | each :: rest, dev, k, h0, hsome => by
    rw [detailsLoop_cons] at hsome
    rcases detailStep_cases env dev each with ⟨e, hstep, _⟩ | ⟨text, hdt, hcl, hstep⟩ |
      ⟨text, r, evs, hdt, hcl, hstep⟩ <;> rw [hstep] at hsome <;> dsimp only at hsome
    · rw [h0] at hsome
      simp at hsome
    · have ih := detailsLoop_only_failures env rest dev k h0 hsome
      exact ⟨List.mem_cons_of_mem each ih.1, ih.2⟩
    · by_cases hk : k = each
      · subst hk
        exact ⟨List.mem_cons_self k rest, text, hdt, classify_some_marker hcl⟩
      · have h1 : dictGet k (dictInsert each r dev.dict_result) = none := by
          rw [dictGet_insert_ne hk]
          exact h0
        have ih := detailsLoop_only_failures env rest _ k h1 hsome
        exact ⟨List.mem_cons_of_mem each ih.1, ih.2⟩

/-- When the loop runs to completion, every MAC of the list whose detail
text carries a marker ends up with an entry. -/
lemma detailsLoop_success (env : Env) :
    ∀ (l : List Str) (dev : Device), (detailsLoop env dev l).1 = none →
      ∀ k ∈ l, ∃ text, env.detailText k = some text ∧
        ((containsSub failLit text || containsSub unauthLit text) = true →
          (dictGet k (detailsLoop env dev l).2.1.dict_result).isSome = true)
  | [], _, _, k, hk => absurd hk (List.not_mem_nil k)
  | each :: rest, dev, hres, k, hk => by
    rw [detailsLoop_cons] at hres ⊢
    rcases detailStep_cases env dev each with ⟨e, hstep, _⟩ | ⟨text, hdt, hcl, hstep⟩ |
      ⟨text, r, evs, hdt, hcl, hstep⟩ <;> rw [hstep] at hres ⊢ <;> dsimp only at hres ⊢
    · simp at hres
    · rcases List.mem_cons.mp hk with rfl | hk'
      · exact ⟨text, hdt, fun hm => absurd (classify_ok_none hcl) (by rw [hm]; simp)⟩
      · exact detailsLoop_success env rest dev hres k hk'
    · rcases List.mem_cons.mp hk with rfl | hk'
      · refine ⟨text, hdt, fun _ => ?_⟩
        apply detailsLoop_mono
        rw [dictGet_insert_self]
        rfl
      · exact detailsLoop_success env rest _ hres k hk'

/-!
## Claim C1: records exist exactly for marker-carrying sessions
-/

/-- C1 (amended): starting from a fresh result map, (a) unconditionally, an
entry exists after detail collection only for an inventory MAC whose detail
text was returned and contains `FAIL` or `Unauthorized` - successfully
authenticated sessions are never materialized, in any outcome; and (b) when
the collection completes without an exception, an entry exists for an
inventory MAC if and only if its detail text contains a marker.  (As stated,
the claim fails only on aborted runs: see the counterexample, where a
marker-carrying MAC gets no entry because the MAB vendor lookup raises.) -/
theorem c1_amended (env : Env) (dev : Device) (hdev : dev.dict_result = []) :
    (∀ k, (dictGet k (collectDetails env dev).2.1.dict_result).isSome = true →
      k ∈ dev.mac_addresses ∧ ∃ text, env.detailText k = some text ∧
        (containsSub failLit text || containsSub unauthLit text) = true) ∧
    ((collectDetails env dev).1 = none →
      ∀ k ∈ dev.mac_addresses, ∃ text, env.detailText k = some text ∧
        ((containsSub failLit text || containsSub unauthLit text) = true ↔
          (dictGet k (collectDetails env dev).2.1.dict_result).isSome = true)) := by
  have h0 : ∀ k, dictGet k dev.dict_result = none := by
    intro k
    rw [hdev]
    rfl
  constructor
  · intro k hsome
    exact detailsLoop_only_failures env dev.mac_addresses dev k (h0 k) hsome
  · intro hres k hk
    obtain ⟨text, hdt, himp⟩ := detailsLoop_success env dev.mac_addresses dev hres k hk
    refine ⟨text, hdt, himp, fun hsome => ?_⟩
    obtain ⟨_, text', hdt', hm'⟩ :=
      detailsLoop_only_failures env dev.mac_addresses dev k (h0 k) hsome
    rw [hdt] at hdt'
    obtain rfl : text = text' := by simpa using hdt'
    exact hm'

/-- The detail text of the C1/C4 counterexample: it carries the `FAIL`
marker and a `mab ... Authc` method line but no MAC-grammar substring. -/
def maclessMabText : Str := "FAIL\n  mab  Authc x\n".data

/-- The inventory MAC used by the counterexample environments. -/
def macEx : Str := "aaaa.bbbb.cccc".data

/-- Environment for the C1 counterexample: the single inventory MAC answers
with marker-carrying detail text that contains no MAC-grammar substring. -/
def envC1 : Env :=
  { openOk := true, termLenOk := true,
    inventoryText := some "Session count = 1\naaaa.bbbb.cccc\n".data,
    detailText := fun _ => some maclessMabText,
    lookup := fun _ => .exn }

/-- Device state right before detail collection in the C1 counterexample. -/
def devC1 : Device :=
  { current_ip_address := "10.0.0.1".data, dict_result := [],
    session_count := ["1".data], mac_addresses := [macEx] }

/-- C1 counterexample: the inventory MAC's detail text contains `FAIL`, yet
no entry is ever added for it - the iteration aborts with the vendor-lookup
`IndexError` and the result map stays empty. -/
theorem c1_counterexample :
    macEx ∈ devC1.mac_addresses ∧
    envC1.detailText macEx = some maclessMabText ∧
    containsSub failLit maclessMabText = true ∧
    (collectDetails envC1 devC1).2.1.dict_result = [] ∧
    (collectDetails envC1 devC1).1 = some .indexError :=
  ⟨by decide, rfl, by decide, by decide, by decide⟩

/-!
## Event-trace lemmas
-/

/-- The events of one vendor step: nothing, or a lookup followed by the
one-second sleep, or - when the request raised - a lookup alone. -/
lemma vendorStep_evs {r0 : SessionRecord} {text : Str} {lookup : Str → Lookup}
    {r : SessionRecord} {evs : List Event}
    (h : vendorStep r0 text lookup = .ok (r, evs)) :
    evs = [] ∨ (∃ m, evs = [.lookupReq m false, .sleep 1]) ∨
      ∃ m, evs = [.lookupReq m true] := by
  simp only [vendorStep] at h
  cases hmet : reFindAll methodMatchAt text with
  | nil =>
    rw [hmet] at h
    obtain ⟨_, rfl⟩ : r0 = r ∧ [] = evs := by simpa using h
    exact Or.inl rfl
  | cons m0 ms =>
    rw [hmet] at h
    dsimp only at h
    split at h
    · cases hmac : reFindAll macMatchAt text with
      | nil =>
        rw [hmac] at h
        simp at h
      | cons mac0 macs' =>
        rw [hmac] at h
        dsimp only at h
        cases hlk : lookup mac0 with
        | resp st body =>
          rw [hlk] at h
          dsimp only at h
          split at h
          · obtain ⟨_, rfl⟩ : _ ∧ [Event.lookupReq mac0 false, Event.sleep 1] = evs := by
              simpa using h
            exact Or.inr (Or.inl ⟨mac0, rfl⟩)
          · obtain ⟨_, rfl⟩ : _ ∧ [Event.lookupReq mac0 false, Event.sleep 1] = evs := by
              simpa using h
            exact Or.inr (Or.inl ⟨mac0, rfl⟩)
        | exn =>
          rw [hlk] at h
          dsimp only at h
          obtain ⟨_, rfl⟩ : _ ∧ [Event.lookupReq mac0 true] = evs := by simpa using h
          exact Or.inr (Or.inr ⟨mac0, rfl⟩)
    · obtain ⟨_, rfl⟩ : r0 = r ∧ [] = evs := by simpa using h
      exact Or.inl rfl

/-- The events attached to a produced record. -/
lemma classify_evs {each text : Str} {lookup : Str → Lookup} {r : SessionRecord}
    {evs : List Event} (h : classify each text lookup = .ok (some (r, evs))) :
    evs = [] ∨ (∃ m, evs = [.lookupReq m false, .sleep 1]) ∨
      ∃ m, evs = [.lookupReq m true] := by
  unfold classify at h
  split at h
  · cases hvs : vendorStep (buildRecord each text) text lookup with
    | error e => rw [hvs] at h; simp at h
    | ok p =>
      obtain ⟨r', evs'⟩ := p
      rw [hvs] at h
      obtain ⟨rfl, rfl⟩ : r' = r ∧ evs' = evs := by simpa using h
      exact vendorStep_evs hvs
  · simp at h

/-- The inventory step only exchanges the paging and inventory commands. -/
lemma collectSessions_trace (env : Env) (dev : Device) :
    ∀ x ∈ (collectSessions env dev).2.2, x = .termLenCmd ∨ x = .inventoryQuery := by
  unfold collectSessions
  split
  · intro x hx
    simp only [List.mem_singleton] at hx
    exact Or.inl hx
  · split <;> intro x hx <;> simpa using hx

/-- The events of one loop iteration. -/
lemma detailStep_trace (env : Env) (dev : Device) (each : Str) :
    ∀ x ∈ (detailStep env dev each).2.2,
      x = .detailQuery each ∨ (∃ m b, x = .lookupReq m b) ∨ x = .sleep 1 := by
  rcases detailStep_cases env dev each with ⟨e, hstep, _⟩ | ⟨text, _, _, hstep⟩ |
    ⟨text, r, evs, _, hcl, hstep⟩ <;> rw [hstep] <;> dsimp only <;> intro x hx
  · simp only [List.mem_singleton] at hx
    exact Or.inl hx
  · simp only [List.mem_singleton] at hx
    exact Or.inl hx
  · rcases List.mem_cons.mp hx with rfl | hx'
    · exact Or.inl rfl
    · rcases classify_evs hcl with rfl | ⟨m, rfl⟩ | ⟨m, rfl⟩
      · simp at hx'
      · rcases by simpa using hx' with rfl | rfl
        · exact Or.inr (Or.inl ⟨m, false, rfl⟩)
        · exact Or.inr (Or.inr rfl)
      · rcases by simpa using hx' with rfl
        exact Or.inr (Or.inl ⟨m, true, rfl⟩)

/-- The events of the whole detail loop. -/
lemma detailsLoop_trace (env : Env) :
    ∀ (l : List Str) (dev : Device), ∀ x ∈ (detailsLoop env dev l).2.2,
      (∃ m, x = .detailQuery m) ∨ (∃ m b, x = .lookupReq m b) ∨ x = .sleep 1
  | [], dev => by
    intro x hx
    rw [detailsLoop] at hx
    simp at hx
  | each :: rest, dev => by
    intro x hx
    rw [detailsLoop_cons] at hx
    rcases hstep : detailStep env dev each with ⟨res1, dev1, evs⟩
    rw [hstep] at hx
    cases res1 with
    | some e =>
      dsimp only at hx
      rcases detailStep_trace env dev each x (by rw [hstep]; exact hx) with h | h | h
      exacts [Or.inl ⟨each, h⟩, Or.inr (Or.inl h), Or.inr (Or.inr h)]
    | none =>
      dsimp only at hx
      rcases List.mem_append.mp hx with hx' | hx'
      · rcases detailStep_trace env dev each x (by rw [hstep]; exact hx') with h | h | h
        exacts [Or.inl ⟨each, h⟩, Or.inr (Or.inl h), Or.inr (Or.inr h)]
      · exact detailsLoop_trace env rest dev1 x hx'

/-!
## Claim C6: the close is reached only on fully successful runs
-/

/-- Environment for the C6 counterexample: the handle opens and the
inventory parses, but the per-MAC detail query raises. -/
def envC6 : Env :=
  { openOk := true, termLenOk := true,
    inventoryText := some "Session count = 1\naaaa.bbbb.cccc\n".data,
    detailText := fun _ => none,
    lookup := fun _ => .exn }

/-- C6 counterexample: on a mid-loop detail-query failure the run terminates
by exception and the handle close is never attempted - `main` has no
`try/finally` around the collection steps. -/
theorem c6_counterexample :
    (runMain envC6 "10.0.0.1".data).1 = some .commandError ∧
    Event.closeConn ∉ (runMain envC6 "10.0.0.1".data).2.2 :=
  ⟨by decide, by decide⟩

/-- C6 (amended): closing the handle is attempted exactly on the runs that
complete normally; when the open fails or an inventory or detail command
raises, the exception propagates out of `main` without any close attempt. -/
theorem c6_amended (env : Env) (ip : Str) :
    (runMain env ip).1 = none ↔ Event.closeConn ∈ (runMain env ip).2.2 := by
  unfold runMain
  split
  · simp
  · dsimp only
    rcases hcs : collectSessions env (Device.init ip) with ⟨res1, dev1, evs1⟩
    have hevs1 : Event.closeConn ∉ evs1 := by
      intro hmem
      have := collectSessions_trace env (Device.init ip) Event.closeConn
        (by rw [hcs]; exact hmem)
      simp at this
    cases res1 with
    | some e =>
      dsimp only
      constructor
      · intro h
        simp at h
      · intro h
        rcases List.mem_cons.mp h with h' | h'
        · simp at h'
        · exact absurd h' hevs1
    | none =>
      dsimp only
      rcases hdl : collectDetails env dev1 with ⟨res2, dev2, evs2⟩
      have hevs2 : Event.closeConn ∉ evs2 := by
        intro hmem
        have := detailsLoop_trace env dev1.mac_addresses dev1 Event.closeConn
          (by rw [show detailsLoop env dev1 dev1.mac_addresses = collectDetails env dev1
              from rfl, hdl]
              exact hmem)
        simp at this
      cases res2 with
      | some e =>
        dsimp only
        constructor
        · intro h
          simp at h
        · intro h
          rcases List.mem_cons.mp h with h' | h'
          · simp at h'
          · rcases List.mem_append.mp h' with h'' | h''
            exacts [absurd h'' hevs1, absurd h'' hevs2]
      | none =>
        dsimp only
        constructor
        · intro _
          simp
        · intro _
          rfl

/-!
## Claim C8: open failure aborts before any device query
-/

/-- C8: when the handle fails to open, the run raises `ConnectionError`, the
result map is empty (a failure outcome, not a partial result), and the trace
holds no inventory query and no per-MAC detail query. -/
theorem c8_open_failure (env : Env) (ip : Str) (h : env.openOk = false) :
    (runMain env ip).1 = some .connectionError ∧
    (runMain env ip).2.1.dict_result = [] ∧
    (runMain env ip).2.2 = [.openAttempt] ∧
    Event.inventoryQuery ∉ (runMain env ip).2.2 ∧
    (∀ m, Event.detailQuery m ∉ (runMain env ip).2.2) := by
  unfold runMain
  rw [h]
  refine ⟨by simp, by simp [Device.init], by simp, by simp, fun m => by simp⟩

/-- Environment for the C8 witness: the SSH open fails. -/
def envC8 : Env :=
  { openOk := false, termLenOk := true, inventoryText := none,
    detailText := fun _ => none, lookup := fun _ => .exn }

/-- C8 witness at a concrete environment whose open fails. -/
theorem c8_open_failure_witness :
    (runMain envC8 "10.0.0.2".data).1 = some .connectionError ∧
    (runMain envC8 "10.0.0.2".data).2.2 = [.openAttempt] := by
  have h := c8_open_failure envC8 "10.0.0.2".data rfl
  exact ⟨h.1, h.2.2.1⟩

/-!
## Claim C5: the one-second pause after vendor lookups
-/

/-- The claim as stated: scanning the trace, once a vendor lookup has
happened (the flag is set), another lookup may only follow after a sleep
event. -/
def gapsSlept : Bool → List Event → Bool
  | _, [] => true
  | _, .sleep _ :: rest => gapsSlept false rest
  | true, .lookupReq _ _ :: _ => false
  | false, .lookupReq _ _ :: rest => gapsSlept true rest
  | b, _ :: rest => gapsSlept b rest

/-- The amended property: every vendor lookup that received an HTTP response
is immediately followed by the one-second sleep; a lookup whose request
raised is exempt. -/
def respSleepOk : List Event → Bool
  | [] => true
  | .lookupReq _ false :: rest =>
    match rest with
    | .sleep 1 :: rest2 => respSleepOk rest2
    | _ => false
  | _ :: rest => respSleepOk rest

/-- Environment for the C5 counterexample: both inventory MACs classify as
MAB failures and the vendor request raises each time. -/
def envC5 : Env :=
  { openOk := true, termLenOk := true,
    inventoryText := some "Session count = 2\naaaa.bbbb.cccc dddd.eeee.ffff\n".data,
    detailText := fun _ => some "FAIL\nmab  Authc x\naaaa.bbbb.cccc\n".data,
    lookup := fun _ => .exn }

/-- Device state right before detail collection in the C5 counterexample. -/
def devC5 : Device :=
  { current_ip_address := "10.0.0.1".data, dict_result := [],
    session_count := ["2".data],
    mac_addresses := [macEx, "dddd.eeee.ffff".data] }

/-- C5 counterexample: when the vendor request raises, the `time.sleep(1)`
inside the `try` block is skipped, so two consecutive lookups occur with no
sleep between them. -/
theorem c5_counterexample :
    (collectDetails envC5 devC5).2.2 =
      [.detailQuery macEx, .lookupReq macEx true,
        .detailQuery "dddd.eeee.ffff".data, .lookupReq macEx true] ∧
    gapsSlept false (collectDetails envC5 devC5).2.2 = false :=
  ⟨by decide, by decide⟩

lemma respSleepOk_block {evs : List Event}
    (h : evs = [] ∨ (∃ m, evs = [.lookupReq m false, .sleep 1]) ∨
      ∃ m, evs = [.lookupReq m true]) (l : List Event) :
    respSleepOk (evs ++ l) = respSleepOk l := by
  rcases h with rfl | ⟨m, rfl⟩ | ⟨m, rfl⟩ <;> rfl

lemma respSleepOk_detailQuery (m : Str) (l : List Event) :
    respSleepOk (.detailQuery m :: l) = respSleepOk l := rfl

lemma detailsLoop_respSleepOk (env : Env) :
    ∀ (l : List Str) (dev : Device) (rest : List Event),
      respSleepOk ((detailsLoop env dev l).2.2 ++ rest) = respSleepOk rest
  | [], dev, rest => by rw [detailsLoop]; rfl
  | each :: rest', dev, rest => by
    rw [detailsLoop_cons]
    rcases detailStep_cases env dev each with ⟨e, hstep, _⟩ | ⟨text, _, _, hstep⟩ |
      ⟨text, r, evs, _, hcl, hstep⟩ <;> rw [hstep] <;> dsimp only
    · rfl
    · simp only [List.cons_append, List.nil_append, respSleepOk_detailQuery]
      exact detailsLoop_respSleepOk env rest' dev rest
    · simp only [List.cons_append, List.append_assoc, respSleepOk_detailQuery]
      rw [respSleepOk_block (classify_evs hcl)]
      exact detailsLoop_respSleepOk env rest' _ rest

lemma respSleepOk_neutral (x : Event) (hx : ∀ m, x ≠ .lookupReq m false)
    (l : List Event) : respSleepOk (x :: l) = respSleepOk l := by
  cases x with
  | lookupReq m b =>
    cases b with
    | false => exact absurd rfl (hx m)
    | true => rfl
  | sleep n => rfl
  | openAttempt => rfl
  | termLenCmd => rfl
  | inventoryQuery => rfl
  | detailQuery m => rfl
  | closeConn => rfl

lemma respSleepOk_all_neutral :
    ∀ (l1 : List Event), (∀ x ∈ l1, ∀ m, x ≠ .lookupReq m false) →
      ∀ l2, respSleepOk (l1 ++ l2) = respSleepOk l2
  | [], _, _ => rfl
  | x :: xs, h, l2 => by
    rw [List.cons_append, respSleepOk_neutral x (h x (List.mem_cons_self x xs)),
      respSleepOk_all_neutral xs (fun y hy => h y (List.mem_cons_of_mem x hy)) l2]

/-- C5 (amended): in every run, each vendor lookup that received an HTTP
response - success or any other status - is immediately followed by the
one-second pause; the pause is skipped exactly on request-level exceptions,
as the counterexample shows. -/
theorem c5_amended (env : Env) (ip : Str) :
    respSleepOk (runMain env ip).2.2 = true := by
  unfold runMain
  split
  · rfl
  · dsimp only
    rcases hcs : collectSessions env (Device.init ip) with ⟨res1, dev1, evs1⟩
    have hevs1 : ∀ l, respSleepOk (evs1 ++ l) = respSleepOk l := by
      intro l
      apply respSleepOk_all_neutral
      intro x hx m
      rcases collectSessions_trace env (Device.init ip) x (by rw [hcs]; exact hx) with
        rfl | rfl
      · intro h
        cases h
      · intro h
        cases h
    cases res1 with
    | some e =>
      dsimp only
      rw [respSleepOk_neutral _ (fun m h => by cases h) evs1,
        show evs1 = evs1 ++ [] by simp, hevs1]
      rfl
    | none =>
      dsimp only
      rcases hdl : collectDetails env dev1 with ⟨res2, dev2, evs2⟩
      have hloop : ∀ l, respSleepOk (evs2 ++ l) = respSleepOk l := by
        intro l
        have h1 := detailsLoop_respSleepOk env dev1.mac_addresses dev1 l
        rw [show detailsLoop env dev1 dev1.mac_addresses = collectDetails env dev1
          from rfl, hdl] at h1
        exact h1
      cases res2 with
      | some e =>
        dsimp only
        rw [respSleepOk_neutral _ (fun m h => by cases h) (evs1 ++ evs2), hevs1,
          show evs2 = evs2 ++ [] by simp, hloop]
        rfl
      | none =>
        dsimp only
        rw [List.cons_append, List.append_assoc,
          respSleepOk_neutral Event.openAttempt (fun m h => by cases h)
            (evs1 ++ (evs2 ++ [Event.closeConn])),
          hevs1, hloop]
        rfl

/-!
## Claim C7: the vendor field is tied to the MAB method
-/

/-- C7: a produced record carries a vendor field exactly when its method
token is `mab` case-insensitively; when it does, the lookup was issued for
the record's extracted MAC, and for any other method (including the
`Unknown` sentinel) no lookup happens and no vendor field is populated. -/
theorem c7_vendor_iff_mab (each text : Str) (lookup : Str → Lookup)
    (r : SessionRecord) (evs : List Event)
    (h : classify each text lookup = .ok (some (r, evs))) :
    (r.vendor.isSome = true ↔ lowerStr r.method = mabStr) ∧
    (r.vendor.isSome = true → ∃ b, Event.lookupReq r.mac_address b ∈ evs) ∧
    (r.vendor = none → evs = []) := by
  unfold classify at h
  split at h
  case isFalse => simp at h
  case isTrue hmark =>
    cases hvs : vendorStep (buildRecord each text) text lookup with
    | error e =>
      rw [hvs] at h
      simp at h
    | ok p =>
      rw [hvs] at h
      obtain rfl : p = (r, evs) := by simpa using h
      simp only [vendorStep] at hvs
      cases hmet : reFindAll methodMatchAt text with
      | nil =>
        rw [hmet] at hvs
        obtain ⟨hr, hevs⟩ : buildRecord each text = r ∧ [] = evs := by simpa using hvs
        subst hr
        subst hevs
        have hmeth : (buildRecord each text).method = unknownStr := by
          show (reFindAll methodMatchAt text).headD unknownStr = unknownStr
          rw [hmet]
          rfl
        refine ⟨?_, ?_, fun _ => rfl⟩
        · rw [hmeth]
          show false = true ↔ lowerStr unknownStr = mabStr
          simp
          decide
        · intro hcon
          exact absurd hcon (by simp; rfl)
      | cons m0 ms =>
        rw [hmet] at hvs
        dsimp only at hvs
        have hmeth : (buildRecord each text).method = m0 := by
          show (reFindAll methodMatchAt text).headD unknownStr = m0
          rw [hmet]
          rfl
        split at hvs
        case isTrue hmab =>
          cases hmac : reFindAll macMatchAt text with
          | nil =>
            rw [hmac] at hvs
            simp at hvs
          | cons mac0 macs' =>
            rw [hmac] at hvs
            dsimp only at hvs
            have hmacf : (buildRecord each text).mac_address = mac0 := by
              show (reFindAll macMatchAt text).headD each = mac0
              rw [hmac]
              rfl
            cases hlk : lookup mac0 with
            | resp st body =>
              rw [hlk] at hvs
              dsimp only at hvs
              split at hvs
              · obtain ⟨hr, hevs⟩ :
                    { buildRecord each text with vendor := some body } = r ∧
                      [Event.lookupReq mac0 false, Event.sleep 1] = evs := by
                  simpa using hvs
                subst hr
                subst hevs
                refine ⟨?_, fun _ => ⟨false, ?_⟩, fun hcon => ?_⟩
                · constructor
                  · intro _
                    show lowerStr ((buildRecord each text).method) = mabStr
                    rw [hmeth]
                    exact hmab
                  · intro _
                    rfl
                · show Event.lookupReq ((buildRecord each text).mac_address) false ∈ _
                  rw [hmacf]
                  exact List.mem_cons_self _ _
                · exact absurd hcon (by simp)
              · obtain ⟨hr, hevs⟩ :
                    { buildRecord each text with vendor := some unknownStr } = r ∧
                      [Event.lookupReq mac0 false, Event.sleep 1] = evs := by
                  simpa using hvs
                subst hr
                subst hevs
                refine ⟨?_, fun _ => ⟨false, ?_⟩, fun hcon => ?_⟩
                · constructor
                  · intro _
                    show lowerStr ((buildRecord each text).method) = mabStr
                    rw [hmeth]
                    exact hmab
                  · intro _
                    rfl
                · show Event.lookupReq ((buildRecord each text).mac_address) false ∈ _
                  rw [hmacf]
                  exact List.mem_cons_self _ _
                · exact absurd hcon (by simp)
            | exn =>
              rw [hlk] at hvs
              dsimp only at hvs
              obtain ⟨hr, hevs⟩ :
                  { buildRecord each text with vendor := some unknownStr } = r ∧
                    [Event.lookupReq mac0 true] = evs := by
                simpa using hvs
              subst hr
              subst hevs
              refine ⟨?_, fun _ => ⟨true, ?_⟩, fun hcon => ?_⟩
              · constructor
                · intro _
                  show lowerStr ((buildRecord each text).method) = mabStr
                  rw [hmeth]
                  exact hmab
                · intro _
                  rfl
              · show Event.lookupReq ((buildRecord each text).mac_address) true ∈ _
                rw [hmacf]
                exact List.mem_cons_self _ _
              · exact absurd hcon (by simp)
        case isFalse hmab =>
          obtain ⟨hr, hevs⟩ : buildRecord each text = r ∧ [] = evs := by simpa using hvs
          subst hr
          subst hevs
          refine ⟨?_, ?_, fun _ => rfl⟩
          · constructor
            · intro hcon
              exact absurd hcon (by simp; rfl)
            · intro hcon
              rw [hmeth] at hcon
              exact absurd hcon hmab
          · intro hcon
            exact absurd hcon (by simp; rfl)

/-- A detail text that is a MAB failure and does contain its MAC. -/
def mabText : Str := "FAIL\nmab  Authc x\naaaa.bbbb.cccc\n".data

/-- The record produced for `mabText` with a successful vendor response. -/
def recC7 : SessionRecord :=
  { status := unknownStr, interface := unknownStr, mac_address := macEx,
    ip_address := unknownLower, user_name := unknownStr, method := mabStr,
    vendor := some "VMware, Inc.".data }

/-- C7 witness: on a concrete MAB-failure text the classifier produces
exactly `recC7` with the lookup/sleep events, and the theorem instantiates. -/
theorem c7_vendor_iff_mab_witness :
    classify macEx mabText (fun _ => .resp 200 "VMware, Inc.".data) =
      .ok (some (recC7, [.lookupReq macEx false, .sleep 1])) ∧
    (recC7.vendor.isSome = true ↔ lowerStr recC7.method = mabStr) := by
  have hcl : classify macEx mabText (fun _ => .resp 200 "VMware, Inc.".data) =
      .ok (some (recC7, [.lookupReq macEx false, .sleep 1])) := by rfl
  exact ⟨hcl, (c7_vendor_iff_mab macEx mabText _ recC7 _ hcl).1⟩

/-!
## Claim C4: the vendor lookup block and the macless MAB abort
-/

/-- The vendor field of a classified record, when one was produced. -/
def vendorOf : Except PyErr (Option (SessionRecord × List Event)) → Option Str
  | .ok (some (r, _)) => r.vendor
  | _ => none

/-- Environment for the C4 failing input: the single inventory MAC answers
with `FAIL` + `mab ... Authc` detail text containing no MAC-grammar
substring; the vendor service itself would answer perfectly. -/
def envC4 : Env :=
  { openOk := true, termLenOk := true,
    inventoryText := some "Session count = 1\naaaa.bbbb.cccc\n".data,
    detailText := fun _ => some maclessMabText,
    lookup := fun _ => .resp 200 "VMware, Inc.".data }

/-- C4: the code contradicts the no-abort contract.  On a MAB-classified
session whose detail text has no MAC-grammar substring, line 237 indexes
`mac_address[0]` - without the fallback used on line 220 - and the
`IndexError` escapes (only `RequestException` is caught): the run aborts
before any lookup is issued.  The remaining conjuncts confirm the intended
degradation: with a MAC present, HTTP 404 and a raised request both yield
vendor `Unknown` and a produced record. -/
theorem c4_mab_without_mac_aborts :
    (runMain envC4 "10.0.0.1".data).1 = some .indexError ∧
    (runMain envC4 "10.0.0.1".data).2.2 =
      [.openAttempt, .termLenCmd, .inventoryQuery, .detailQuery macEx] ∧
    reFindAll macMatchAt maclessMabText = [] ∧
    lowerStr ((reFindAll methodMatchAt maclessMabText).headD unknownStr) = mabStr ∧
    containsSub failLit maclessMabText = true ∧
    vendorOf (classify macEx mabText (fun _ => .resp 404 "Not Found".data)) =
      some unknownStr ∧
    vendorOf (classify macEx mabText (fun _ => .exn)) = some unknownStr :=
  ⟨by decide, by decide, by decide, by decide, by decide, by decide, by decide⟩

/-!
## Witnesses for C1 and C10
-/

/-- A detail text carrying the `Unauthorized` marker and a dot1x method. -/
def unauthText : Str := "Unauthorized\ndot1x  Authc y\n".data

/-- Environment for the C1/C10 witnesses: one inventory MAC whose session is
an unauthorized dot1x failure. -/
def envW1 : Env :=
  { openOk := true, termLenOk := true,
    inventoryText := some "Session count = 1\naaaa.bbbb.cccc\n".data,
    detailText := fun _ => some unauthText,
    lookup := fun _ => .exn }

/-- Fresh device for the C1 witness. -/
def devW1 : Device :=
  { current_ip_address := "10.0.0.1".data, dict_result := [],
    session_count := ["1".data], mac_addresses := [macEx] }

/-- C1 witness: the hypotheses of the amended claim hold at a concrete
environment, and the marker-carrying session's entry exists. -/
theorem c1_amended_witness :
    (collectDetails envW1 devW1).1 = none ∧
    (dictGet macEx (collectDetails envW1 devW1).2.1.dict_result).isSome = true := by
  have h := c1_amended envW1 devW1 rfl
  refine ⟨by decide, ?_⟩
  obtain ⟨text, hdt, hiff⟩ := h.2 (by decide) macEx (by decide)
  have h2 : some unauthText = some text := hdt
  obtain rfl : unauthText = text := by injection h2
  exact hiff.mp (by decide)

/-- A pre-existing record under a key outside the inventory. -/
def recW : SessionRecord :=
  { status := unknownStr, interface := unknownStr, mac_address := "1111.2222.3333".data,
    ip_address := unknownLower, user_name := unknownStr, method := unknownStr,
    vendor := none }

/-- Device for the C10 witness: carries an accumulated entry under a key not
in the current inventory list. -/
def devW10 : Device :=
  { current_ip_address := "10.0.0.1".data,
    dict_result := [("1111.2222.3333".data, recW)],
    session_count := ["1".data], mac_addresses := [macEx] }

/-- C10 witness: after another detail collection, the accumulated entry under
the non-inventory key is retained unchanged. -/
theorem c10_frame_witness :
    dictGet "1111.2222.3333".data (collectDetails envW1 devW10).2.1.dict_result =
      some recW ∧
    (collectDetails envW1 devW10).2.1.mac_addresses = [macEx] := by
  have h := c10_frame envW1 devW10
  refine ⟨h.2.2.2.2 "1111.2222.3333".data recW (by decide) (by decide), ?_⟩
  rw [h.2.2.1]
  rfl

/-!
## Claim C3: the per-field extraction of `parse_detail`

The spec-side reading is a first-occurrence scan of the text with a
per-position capture function; `reFindAll ... |>.headD` is proved equal to
it.  The claim-side (literal) field rules are also defined, and refuted on a
concrete text.
-/

/-- First-occurrence scan: the capture at the leftmost position where the
per-position capture function fires. -/
def scanFirst (f : Str → Option Str) : Str → Option Str
  | [] => none
  | c :: t =>
    match f (c :: t) with
    | some v => some v
    | none => scanFirst f t

/-- The head of a findall result is the capture at the first position where
the matcher fires. -/
lemma reFindAll_head {M : Str → Option (Str × Str)} (hM : DropMatcher M) :
    ∀ s : Str, (reFindAll M s).head? = scanFirst (fun u => (M u).map Prod.fst) s
  | [] => by
    rw [reFindAll_nil hM]
    rfl
  | c :: t => by
    cases hms : M (c :: t) with
    | none =>
      rw [reFindAll_cons_none hms, reFindAll_head hM t]
      show scanFirst (fun u => (M u).map Prod.fst) t =
        match (M (c :: t)).map Prod.fst with
        | some v => some v
        | none => scanFirst (fun u => (M u).map Prod.fst) t
      rw [hms]
      rfl
    | some mr =>
      obtain ⟨m, r⟩ := mr
      rw [reFindAll_cons_some hM hms]
      show some m =
        match (M (c :: t)).map Prod.fst with
        | some v => some v
        | none => scanFirst (fun u => (M u).map Prod.fst) t
      rw [hms]
      rfl

lemma scanFirst_congr {f g : Str → Option Str} (h : ∀ u, f u = g u) :
    ∀ s : Str, scanFirst f s = scanFirst g s
  | [] => rfl
  | c :: t => by
    unfold scanFirst
    rw [h (c :: t), scanFirst_congr h t]

/-- `dropWhile` is `drop` of the `takeWhile` length. -/
lemma drop_length_takeWhile (p : Char → Bool) (l : Str) :
    l.drop (l.takeWhile p).length = l.dropWhile p := by
  have h := List.drop_left (l.takeWhile p) (l.dropWhile p)
  rw [List.takeWhile_append_dropWhile] at h
  exact h

/-!
### Per-position captures of the amended field rules
-/

/-- Amended status rule at one position: the literal `Status:  ` (two
spaces), then the rest of the line. -/
def statusCapture (u : Str) : Option Str :=
  if statusLit.isPrefixOf u then some (restOfLine (u.drop statusLit.length)) else none

/-- Interface rule at one position: the literal `Interface: `, then the rest
of the line. -/
def interfaceCapture (u : Str) : Option Str :=
  if interfaceLit.isPrefixOf u then some (restOfLine (u.drop interfaceLit.length)) else none

/-- Amended user-name rule at one position: the literal `User-Name:`, a
whitespace character, then - after the whole whitespace run - the rest of
the line. -/
def userCapture (u : Str) : Option Str :=
  if userLit.isPrefixOf u then
    match u.drop userLit.length with
    | [] => none
    | d :: t' =>
      if isSpaceB d then some (restOfLine ((d :: t').dropWhile isSpaceB)) else none
  else none

/-- MAC rule at one position: a 14-character `hex4.hex4.hex4` shape. -/
def macCapture (u : Str) : Option Str :=
  if isMacStr (u.take 14) then some (u.take 14) else none

/-- Amended method rule at one position: a maximal word run of length 3-5,
a whitespace run (may span line breaks), the literal `Authc`, and one more
whitespace character; the captured token is the word run. -/
def methodCapture (u : Str) : Option Str :=
  if 3 ≤ (u.takeWhile isWordB).length ∧ (u.takeWhile isWordB).length ≤ 5 then
    match u.dropWhile isWordB with
    | [] => none
    | d :: t' =>
      if isSpaceB d then
        if authcLit.isPrefixOf ((d :: t').dropWhile isSpaceB) then
          match ((d :: t').dropWhile isSpaceB).drop authcLit.length with
          | e :: _ => if isSpaceB e then some (u.takeWhile isWordB) else none
          | [] => none
        else none
      else none
  else none

/-- IP rule at one position: what the dotted-quad matcher captures. -/
def ipCapture (u : Str) : Option Str := (ipMatchAt u).map Prod.fst

lemma statusCapture_eq (u : Str) :
    (litLineMatchAt statusLit u).map Prod.fst = statusCapture u := by
  unfold litLineMatchAt statusCapture
  split <;> rfl

lemma interfaceCapture_eq (u : Str) :
    (litLineMatchAt interfaceLit u).map Prod.fst = interfaceCapture u := by
  unfold litLineMatchAt interfaceCapture
  split <;> rfl

lemma macCapture_eq (u : Str) : (macMatchAt u).map Prod.fst = macCapture u := by
  unfold macMatchAt macCapture
  split <;> rfl

lemma takeWhile_isEmpty_iff (p : Char → Bool) (l : Str) :
    (l.takeWhile p).isEmpty = true ↔ (∀ c ∈ l.head?, p c = false) := by
  cases l with
  | nil => simp [List.takeWhile]
  | cons c t =>
    simp only [List.takeWhile, List.head?_cons]
    cases hp : p c <;> simp [hp]

lemma userCapture_eq (u : Str) : (userMatchAt u).map Prod.fst = userCapture u := by
  unfold userMatchAt userCapture
  split
  case isFalse => rfl
  case isTrue hpre =>
    cases hd : u.drop userLit.length with
    | nil => simp [List.takeWhile]
    | cons d t' =>
      dsimp only
      cases hsp : isSpaceB d with
      | false =>
        rw [show (List.takeWhile isSpaceB (d :: t')).isEmpty = true from by
          simp [List.takeWhile, hsp]]
        simp [hsp]
      | true =>
        rw [show (List.takeWhile isSpaceB (d :: t')).isEmpty = false from by
          simp [List.takeWhile, hsp]]
        rw [drop_length_takeWhile]
        simp [hsp]

lemma methodCapture_eq (u : Str) : (methodMatchAt u).map Prod.fst = methodCapture u := by
  unfold methodMatchAt methodCapture
  dsimp only
  rw [drop_length_takeWhile]
  by_cases h : 3 ≤ (u.takeWhile isWordB).length ∧ (u.takeWhile isWordB).length ≤ 5
  · rw [if_pos (by simpa using h), if_pos h]
    cases hd : u.dropWhile isWordB with
    | nil => simp [List.takeWhile]
    | cons d t' =>
      dsimp only
      cases hsp : isSpaceB d with
      | false =>
        have hemp : (List.takeWhile isSpaceB (d :: t')).isEmpty = true := by
          simp [List.takeWhile, hsp]
        rw [hemp, if_pos rfl, if_neg (show ¬ (false = true) from by simp)]
        rfl
      | true =>
        have hemp : (List.takeWhile isSpaceB (d :: t')).isEmpty = false := by
          simp [List.takeWhile, hsp]
        rw [hemp, if_neg (show ¬ (false = true) from by simp), if_pos rfl]
        rw [drop_length_takeWhile]
        by_cases hauth : authcLit.isPrefixOf ((d :: t').dropWhile isSpaceB) = true
        · rw [if_pos hauth, if_pos hauth]
          cases he : ((d :: t').dropWhile isSpaceB).drop authcLit.length with
          | nil => rfl
          | cons e t2 =>
            dsimp only
            cases hspe : isSpaceB e with
            | false => simp
            | true => simp
        · rw [if_neg hauth, if_neg hauth]
          rfl
  · rw [if_neg (by simpa using h), if_neg h]
    rfl

/-!
### The claim-side (literal) field rules and the counterexample
-/

/-- The text after the first occurrence of `pat`, scanning left to right. -/
def afterFirst (pat : Str) : Str → Option Str
  | [] => none
  | c :: t =>
    if pat.isPrefixOf (c :: t) then some ((c :: t).drop pat.length) else afterFirst pat t

/-- C3's literal status rule: the text after `"Status: "` (one space) to end
of line, else `Unknown`. -/
def statusClaimed (text : Str) : Str :=
  ((afterFirst "Status: ".data text).map restOfLine).getD unknownStr

/-- C3's literal user-name rule: the text after `"User-Name: "` (one space)
to end of line, else `Unknown`. -/
def userClaimed (text : Str) : Str :=
  ((afterFirst "User-Name: ".data text).map restOfLine).getD unknownStr

/-- The word token immediately preceding a position, allowing same-line
whitespace in between. -/
def tokenBefore (u : Str) : Option Str :=
  let v := u.reverse
  let sp := v.takeWhile (fun c => isSpaceB c && ¬ (c = '\n'))
  let tok := (v.drop sp.length).takeWhile isWordB
  if tok.isEmpty then none else some tok.reverse

/-- Scan for an occurrence of `Authc` preceded (on its line) by a token. -/
def methodClaimedAux : Str → Str → Option Str
  | _, [] => none
  | pre, c :: t =>
    if authcLit.isPrefixOf (c :: t) then
      match tokenBefore pre with
      | some tok => some tok
      | none => methodClaimedAux (pre ++ [c]) t
    else methodClaimedAux (pre ++ [c]) t

/-- C3's literal method rule: the token immediately preceding the literal
`Authc` on a line, else `Unknown`. -/
def methodClaimed (text : Str) : Str := (methodClaimedAux [] text).getD unknownStr

/-- The counterexample text: a failing session whose status line has a
single space after the colon, whose user-name line has two, and whose method
token has six word characters. -/
def detailTextC3 : Str := "FAIL\nStatus: Failed\nUser-Name:  bob\ndot1xx Authc z\n".data

/-- C3 counterexample: on `detailTextC3` the code disagrees with the claim's
field rules three times over.  The claim's status rule gives `Failed` but
the code's `Status:  (.*)` needs two spaces and falls back to `Unknown`;
the claim's user-name rule keeps the second space (` bob`) while the code's
`\s+` strips it (`bob`); and the claim's method rule reads the token
`dot1xx` while the code's `(\w{3,5})` window captures `ot1xx`. -/
theorem c3_counterexample :
    (containsSub failLit detailTextC3 = true) ∧
    statusClaimed detailTextC3 = "Failed".data ∧
    (buildRecord macEx detailTextC3).status = unknownStr ∧
    userClaimed detailTextC3 = " bob".data ∧
    (buildRecord macEx detailTextC3).user_name = "bob".data ∧
    methodClaimed detailTextC3 = "dot1xx".data ∧
    (buildRecord macEx detailTextC3).method = "ot1xx".data :=
  ⟨by decide, by decide, by decide, by decide, by decide, by decide, by decide⟩

/-!
### The IPv4 grammar behind the dotted-quad matcher
-/

/-- A nonempty run of at most three digit characters. -/
def digitGroup (d : Str) : Prop := d ≠ [] ∧ d.length ≤ 3 ∧ ∀ c ∈ d, isDigitB c = true

/-- The spec's IPv4 grammar at the head of a text: four 1-to-3-digit groups
separated by single dots. -/
def ipGrammarPrefix (u : Str) : Prop :=
  ∃ d1 d2 d3 d4 rest : Str, digitGroup d1 ∧ digitGroup d2 ∧ digitGroup d3 ∧
    digitGroup d4 ∧ u = d1 ++ '.' :: (d2 ++ '.' :: (d3 ++ '.' :: (d4 ++ rest)))

lemma ipCandidates_bounds :
    ∀ t ∈ ipCandidates, (1 ≤ t.1 ∧ t.1 ≤ 3) ∧ (1 ≤ t.2.1 ∧ t.2.1 ≤ 3) ∧
      (1 ≤ t.2.2.1 ∧ t.2.2.1 ≤ 3) ∧ (1 ≤ t.2.2.2 ∧ t.2.2.2 ≤ 3) := by
  decide

lemma mem_ipCandidates {a b c d : Nat} (ha1 : 1 ≤ a) (ha3 : a ≤ 3) (hb1 : 1 ≤ b)
    (hb3 : b ≤ 3) (hc1 : 1 ≤ c) (hc3 : c ≤ 3) (hd1 : 1 ≤ d) (hd3 : d ≤ 3) :
    (a, b, c, d) ∈ ipCandidates := by
  interval_cases a <;> interval_cases b <;> interval_cases c <;> interval_cases d <;> decide

lemma decomp_at {u : Str} {i : Nat} {ch : Char} (h : u.get? i = some ch) :
    u = u.take i ++ ch :: u.drop (i + 1) := by
  obtain ⟨hlt, hget⟩ := List.get?_eq_some.mp h
  conv_lhs => rw [← List.take_append_drop i u]
  congr 1
  rw [List.drop_eq_get_cons hlt, hget]

lemma digitsAt_group {u : Str} {off n : Nat} (hn : 0 < n) (hn3 : n ≤ 3)
    (h : digitsAt u off n = true) :
    digitGroup ((u.drop off).take n) ∧ ((u.drop off).take n).length = n := by
  unfold digitsAt at h
  simp only [Bool.and_eq_true, decide_eq_true_eq] at h
  refine ⟨⟨?_, ?_, ?_⟩, h.1⟩
  · intro hnil
    rw [hnil] at h
    simp at h
    omega
  · rw [h.1]
    exact hn3
  · exact fun c hc => List.all_eq_true.mp h.2 c hc

lemma drop_append_cons (l1 : Str) (ch : Char) (l2 : Str) :
    (l1 ++ ch :: l2).drop (l1.length + 1) = l2 := by
  have h := List.drop_left (l1 ++ [ch]) l2
  rw [List.append_assoc, List.singleton_append, List.length_append] at h
  simpa using h

lemma get?_append_cons (l1 : Str) (ch : Char) (l2 : Str) :
    (l1 ++ ch :: l2).get? l1.length = some ch := by
  rw [List.get?_append_right le_rfl, Nat.sub_self]
  rfl

/-- A successful dotted-quad shape yields a grammar decomposition. -/
lemma ipShape_grammar {u : Str} {t : Nat × Nat × Nat × Nat}
    (hmem : t ∈ ipCandidates) (h : ipShapeAt u t = true) : ipGrammarPrefix u := by
  obtain ⟨a, b, c, d⟩ := t
  obtain ⟨⟨ha1, ha3⟩, ⟨hb1, hb3⟩, ⟨hc1, hc3⟩, ⟨hd1, hd3⟩⟩ := ipCandidates_bounds _ hmem
  unfold ipShapeAt at h
  simp only [Bool.and_eq_true, decide_eq_true_eq] at h
  obtain ⟨⟨⟨⟨⟨⟨h1, h2⟩, h3⟩, h4⟩, h5⟩, h6⟩, h7⟩ := h
  have g1 := digitsAt_group ha1 ha3 h1
  have g2 := digitsAt_group hb1 hb3 h3
  have g3 := digitsAt_group hc1 hc3 h5
  have g4 := digitsAt_group hd1 hd3 h7
  have h4' : (u.drop (a + 1)).get? b = some '.' := by
    rw [List.get?_drop]
    exact h4
  have h6' : (u.drop (a + 1 + b + 1)).get? c = some '.' := by
    rw [List.get?_drop]
    rw [show a + 1 + b + 1 + c = (a + 1 + b + 1) + c from rfl] at h6
    exact h6
  refine ⟨u.take a, (u.drop (a + 1)).take b, (u.drop (a + 1 + b + 1)).take c,
    (u.drop (a + 1 + b + 1 + c + 1)).take d, (u.drop (a + 1 + b + 1 + c + 1)).drop d,
    ?_, g2.1, g3.1, g4.1, ?_⟩
  · have := g1.1
    rw [List.drop_zero] at this
    exact this
  · calc u = u.take a ++ '.' :: u.drop (a + 1) := decomp_at h2
      _ = u.take a ++ '.' ::
          ((u.drop (a + 1)).take b ++ '.' :: (u.drop (a + 1)).drop (b + 1)) :=
        congrArg (fun x => u.take a ++ '.' :: x) (decomp_at h4')
      _ = u.take a ++ '.' ::
          ((u.drop (a + 1)).take b ++ '.' :: u.drop (a + 1 + b + 1)) := by
        rw [List.drop_drop, show (a + 1) + (b + 1) = a + 1 + b + 1 from by omega]
      _ = u.take a ++ '.' :: ((u.drop (a + 1)).take b ++ '.' ::
          ((u.drop (a + 1 + b + 1)).take c ++ '.' ::
            (u.drop (a + 1 + b + 1)).drop (c + 1))) := by
        rw [← decomp_at h6']
      _ = u.take a ++ '.' :: ((u.drop (a + 1)).take b ++ '.' ::
          ((u.drop (a + 1 + b + 1)).take c ++ '.' ::
            u.drop (a + 1 + b + 1 + c + 1))) := by
        rw [List.drop_drop, show (a + 1 + b + 1) + (c + 1) = a + 1 + b + 1 + c + 1
          from by omega]
      _ = u.take a ++ '.' :: ((u.drop (a + 1)).take b ++ '.' ::
          ((u.drop (a + 1 + b + 1)).take c ++ '.' ::
            ((u.drop (a + 1 + b + 1 + c + 1)).take d ++
              (u.drop (a + 1 + b + 1 + c + 1)).drop d))) := by
        rw [List.take_append_drop]

/-- A grammar decomposition yields a successful dotted-quad shape. -/
lemma digitsAt_of_eq {u : Str} {off : Nat} {l r : Str} (hg : digitGroup l)
    (h : u.drop off = l ++ r) : digitsAt u off l.length = true := by
  unfold digitsAt
  rw [h, List.take_left]
  simp only [Bool.and_eq_true, decide_eq_true_eq]
  exact ⟨trivial, List.all_eq_true.mpr hg.2.2⟩

lemma grammar_ipShape {u : Str} (h : ipGrammarPrefix u) :
    ∃ t ∈ ipCandidates, ipShapeAt u t = true := by
  obtain ⟨d1, d2, d3, d4, rest, g1, g2, g3, g4, heq⟩ := h
  have hl1 : 1 ≤ d1.length := List.length_pos.mpr g1.1
  have hl2 : 1 ≤ d2.length := List.length_pos.mpr g2.1
  have hl3 : 1 ≤ d3.length := List.length_pos.mpr g3.1
  have hl4 : 1 ≤ d4.length := List.length_pos.mpr g4.1
  have hA1 : u.drop (d1.length + 1) = d2 ++ '.' :: (d3 ++ '.' :: (d4 ++ rest)) := by
    rw [heq, drop_append_cons]
  have hA2 : u.drop (d1.length + 1 + d2.length + 1) = d3 ++ '.' :: (d4 ++ rest) := by
    rw [show d1.length + 1 + d2.length + 1 = (d1.length + 1) + (d2.length + 1)
      from by omega, ← List.drop_drop, hA1, drop_append_cons]
  have hA3 : u.drop (d1.length + 1 + d2.length + 1 + d3.length + 1) = d4 ++ rest := by
    rw [show d1.length + 1 + d2.length + 1 + d3.length + 1 =
      (d1.length + 1 + d2.length + 1) + (d3.length + 1) from by omega,
      ← List.drop_drop, hA2, drop_append_cons]
  refine ⟨(d1.length, d2.length, d3.length, d4.length),
    mem_ipCandidates hl1 g1.2.1 hl2 g2.2.1 hl3 g3.2.1 hl4 g4.2.1, ?_⟩
  unfold ipShapeAt
  simp only [Bool.and_eq_true, decide_eq_true_eq]
  refine ⟨⟨⟨⟨⟨⟨?_, ?_⟩, ?_⟩, ?_⟩, ?_⟩, ?_⟩, ?_⟩
  · exact digitsAt_of_eq g1 (by rw [List.drop_zero, heq])
  · rw [heq]
    exact get?_append_cons d1 '.' _
  · exact digitsAt_of_eq g2 hA1
  · rw [← List.get?_drop, hA1]
    exact get?_append_cons d2 '.' _
  · exact digitsAt_of_eq g3 hA2
  · rw [← List.get?_drop, hA2]
    exact get?_append_cons d3 '.' _
  · exact digitsAt_of_eq g4 hA3

/-- The dotted-quad matcher fires exactly at IPv4-grammar positions. -/
lemma ipCapture_isSome_iff (u : Str) : (ipCapture u).isSome = true ↔ ipGrammarPrefix u := by
  unfold ipCapture ipMatchAt
  constructor
  · intro h
    cases ht : ipCandidates.find? (ipShapeAt u) with
    | none => rw [ht] at h; simp at h
    | some t =>
      exact ipShape_grammar (List.mem_of_find?_eq_some ht) (List.find?_some ht)
  · intro h
    obtain ⟨t, hmem, hsh⟩ := grammar_ipShape h
    have : (ipCandidates.find? (ipShapeAt u)).isSome = true :=
      List.find?_isSome.mpr ⟨t, hmem, hsh⟩
    cases ht : ipCandidates.find? (ipShapeAt u) with
    | none => rw [ht] at this; simp at this
    | some t' => rfl

/-- C3 (amended): the produced record's fields are extracted per-field by a
first-occurrence scan with documented fallbacks, and no absent field aborts
the parse (`buildRecord` is total and each field degrades to its sentinel
when its scan finds nothing).  The rules as amended: status is the text
after `Status:  ` (two spaces) to end of line; interface after
`Interface: `; user_name is the text after `User-Name:` and its whitespace
run (at least one whitespace character required); method is a maximal
3-to-5-character word run followed by whitespace (possibly spanning lines),
the literal `Authc` and one more whitespace character; mac_address is the
first `hex4.hex4.hex4` occurrence with the queried MAC as fallback;
ip_address is the first (greedy) dotted-quad match, and the dotted-quad
matcher fires exactly at the positions where the spec's IPv4 grammar
matches. -/
theorem c3_amended (each text : Str) :
    (buildRecord each text).status = (scanFirst statusCapture text).getD unknownStr ∧
    (buildRecord each text).interface =
      (scanFirst interfaceCapture text).getD unknownStr ∧
    (buildRecord each text).user_name = (scanFirst userCapture text).getD unknownStr ∧
    (buildRecord each text).method = (scanFirst methodCapture text).getD unknownStr ∧
    (buildRecord each text).mac_address = (scanFirst macCapture text).getD each ∧
    (buildRecord each text).ip_address = (scanFirst ipCapture text).getD unknownLower ∧
    (∀ u : Str, (ipCapture u).isSome = true ↔ ipGrammarPrefix u) := by
  refine ⟨?_, ?_, ?_, ?_, ?_, ?_, ipCapture_isSome_iff⟩
  · show (reFindAll (litLineMatchAt statusLit) text).headD unknownStr = _
    rw [List.headD_eq_head?, reFindAll_head (dropMatcher_litLine (by decide)) text,
      scanFirst_congr statusCapture_eq text]
  · show (reFindAll (litLineMatchAt interfaceLit) text).headD unknownStr = _
    rw [List.headD_eq_head?, reFindAll_head (dropMatcher_litLine (by decide)) text,
      scanFirst_congr interfaceCapture_eq text]
  · show (reFindAll userMatchAt text).headD unknownStr = _
    rw [List.headD_eq_head?, reFindAll_head dropMatcher_user text,
      scanFirst_congr userCapture_eq text]
  · show (reFindAll methodMatchAt text).headD unknownStr = _
    rw [List.headD_eq_head?, reFindAll_head dropMatcher_method text,
      scanFirst_congr methodCapture_eq text]
  · show (reFindAll macMatchAt text).headD each = _
    rw [List.headD_eq_head?, reFindAll_head dropMatcher_mac text,
      scanFirst_congr macCapture_eq text]
  · show (reFindAll ipMatchAt text).headD unknownLower = _
    rw [List.headD_eq_head?, reFindAll_head dropMatcher_ip text]
    exact congrArg (fun x => x.getD unknownLower)
      (scanFirst_congr (g := ipCapture) (fun u => rfl) text)

end SessionAudit
